import Mathlib

set_option linter.unusedSectionVars false

/-!
Verification development for the fabricat canvas renderer.

The JavaScript sources are shallowly embedded: JS numbers are modelled by an
arbitrary linear ordered field `K` with a floor function (instantiated with `ℚ`
in concrete witnesses), and the transcendental functions `Math.cos`, `Math.sin`
together with the constant `Math.PI` are abstracted into a `Trig` bundle, since
none of the verified properties depend on their values.  Byte buffers
(`Uint8ClampedArray`) are modelled by natural numbers together with the
clamp-and-round conversion performed on every store.

Embedded components:
 * the Drawable transform engine (`src/BitmapSkin.js`, second class in the
   file: `updatePosition` / `updateDirection` / `updateScale` / `updateEffect`
   / `_calculateTransform` / `getTransform` / `updateMatrix`);
 * the effect table (`EffectManager.EFFECT_INFO` in `src/Drawable.js`);
 * the Silhouette oracle (`Silhouette.js`);
 * colour compositing (`RenderCanvas.sampleColor3b`), the convex hull
   extractor (`RenderCanvas._getConvexHullPointsForDrawable`), the draw list
   manager and the touch / pick query engine (`RenderCanvas.js`).
-/

namespace Fabricat

/-- Abstraction of `Math.cos`, `Math.sin` and `Math.PI`.  The cached-transform
properties hold for every interpretation of these symbols. -/
structure Trig (K : Type) where
  cos : K → K
  sin : K → K
  pi : K

section Field

variable {K : Type} [LinearOrderedField K] [FloorRing K]

/-- JS `Math.round`: round half toward positive infinity. -/
def jsRound (x : K) : K := (⌊x + 1 / 2⌋ : ℤ)

/-- JS truncation toward zero (the rounding used by the `%` operator). -/
def jsTrunc (x : K) : ℤ := if 0 ≤ x then ⌊x⌋ else -⌊-x⌋

/-- JS remainder `a % b` (sign follows the dividend). -/
def jsMod (a b : K) : K := a - b * (jsTrunc (a / b) : ℤ)

/-- A gl-matrix `mat2d` value `[m0, m1, m2, m3, m4, m5]`: the affine map
`(x, y) ↦ (m0 x + m2 y + m4, m1 x + m3 y + m5)`. -/
structure Mat2d (K : Type) where
  m0 : K
  m1 : K
  m2 : K
  m3 : K
  m4 : K
  m5 : K
deriving DecidableEq

/-- `mat2d.create()`: the identity matrix. -/
def Mat2d.id : Mat2d K := ⟨1, 0, 0, 1, 0, 0⟩

/-- `vec2.transformMat2d`: apply the affine map to a point. -/
def Mat2d.apply (m : Mat2d K) (p : K × K) : K × K :=
  (m.m0 * p.1 + m.m2 * p.2 + m.m4, m.m1 * p.1 + m.m3 * p.2 + m.m5)

/-- gl-matrix `mat2d.multiply(out, a, b)`: the composite applying `b` first. -/
def Mat2d.mul (a b : Mat2d K) : Mat2d K :=
  ⟨a.m0 * b.m0 + a.m2 * b.m1,
   a.m1 * b.m0 + a.m3 * b.m1,
   a.m0 * b.m2 + a.m2 * b.m3,
   a.m1 * b.m2 + a.m3 * b.m3,
   a.m0 * b.m4 + a.m2 * b.m5 + a.m4,
   a.m1 * b.m4 + a.m3 * b.m5 + a.m5⟩

/-- Determinant of the linear part of a `mat2d`. -/
def Mat2d.det (m : Mat2d K) : K := m.m0 * m.m3 - m.m1 * m.m2

/-- gl-matrix `mat2d.invert`: `none` when the determinant vanishes
(in which case the JS function returns `null` and leaves `out` untouched). -/
def Mat2d.invert (m : Mat2d K) : Option (Mat2d K) :=
  let det := m.m0 * m.m3 - m.m1 * m.m2
  if det = 0 then none else
    some ⟨m.m3 * (1 / det), -m.m1 * (1 / det), -m.m2 * (1 / det), m.m0 * (1 / det),
      (m.m2 * m.m5 - m.m3 * m.m4) * (1 / det),
      (m.m1 * m.m4 - m.m0 * m.m5) * (1 / det)⟩

/-- Pure translation matrix `T(t)`. -/
def Mat2d.translation (t : K × K) : Mat2d K := ⟨1, 0, 0, 1, t.1, t.2⟩

/-- Pure scale matrix `S(s)`. -/
def Mat2d.scaling (s : K × K) : Mat2d K := ⟨s.1, 0, 0, s.2, 0, 0⟩

/-- Rotation matrix as built by `_calculateTransform` from an angle. -/
def Mat2d.rotationOf (c s : K) : Mat2d K := ⟨c, s, -s, c, 0, 0⟩

/-- The names of the seven supported effects (`EffectManager.EFFECTS`). -/
inductive EffectName where
  | color
  | fisheye
  | whirl
  | pixelate
  | mosaic
  | brightness
  | ghost
deriving DecidableEq

/-- Bit position of each effect in the enabled-effects bitmask
(`EffectManager.EFFECT_INFO[*].mask = 1 << i`). -/
def EffectName.bit : EffectName → ℕ
  | .color => 0
  | .fisheye => 1
  | .whirl => 2
  | .pixelate => 3
  | .mosaic => 4
  | .brightness => 5
  | .ghost => 6

/-- `EffectManager.EFFECT_INFO[*].mask`. -/
def EffectName.mask (e : EffectName) : ℕ := 2 ^ e.bit

/-- `EffectManager.EFFECT_INFO[*].shapeChanges`. -/
def EffectName.shapeChanges : EffectName → Bool
  | .fisheye => true
  | .whirl => true
  | .pixelate => true
  | .mosaic => true
  | _ => false

/-- `EffectManager.EFFECT_INFO[*].converter`: the raw-to-applied conversion
of each effect value. -/
def converter (T : Trig K) : EffectName → K → K
  | .color, x => jsMod (x / 200) 1
  | .fisheye, x => max 0 ((x + 100) / 100)
  | .whirl, x => -x * T.pi / 180
  | .pixelate, x => |x| / 10
  | .mosaic, x => max 1 (min (jsRound ((|x| + 10) / 10)) 512)
  | .brightness, x => max (-100) (min x 100) / 100
  | .ghost, x => 1 - max 0 (min x 100) / 100

/-- The skin data read by the transform engine: `skin.rotationCenter` and the
scalar `skin.sizeRatio` (`BitmapSkin` returns the constant `2`). -/
structure SkinData (K : Type) where
  rotationCenter : K × K
  sizeRatio : K
deriving DecidableEq

/-- State of a `Drawable` (the class defined in `src/BitmapSkin.js`): logical
fields, cached derived values and their dirty flags. -/
structure Drawable (K : Type) where
  position : K × K
  scale : K × K
  direction : K
  transformDirty : Bool
  rotationMatrix : Mat2d K
  rotationTransformDirty : Bool
  rotationCenter : K × K
  rotationCenterDirty : Bool
  skinScale : K × K
  skinScaleDirty : Bool
  inverseMatrix : Mat2d K
  inverseTransformDirty : Bool
  transformMatrix : Mat2d K
  transformedHullDirty : Bool
  convexHullDirty : Bool
  enabledEffects : ℕ
  effects : EffectName → K
  skin : Option (SkinData K)

/-- The `Drawable` constructor (with a skin already attached through the
`skin` setter, which marks every cache dirty anyway). -/
def Drawable.init (T : Trig K) (sk : Option (SkinData K)) : Drawable K where
  position := (0, 0)
  scale := (100, 100)
  direction := 90
  transformDirty := true
  rotationMatrix := Mat2d.id
  rotationTransformDirty := true
  rotationCenter := (0, 0)
  rotationCenterDirty := true
  skinScale := (0, 0)
  skinScaleDirty := true
  inverseMatrix := Mat2d.id
  inverseTransformDirty := true
  transformMatrix := Mat2d.id
  transformedHullDirty := true
  convexHullDirty := true
  enabledEffects := 0
  effects := fun e => converter T e 0
  skin := sk

/-- `Drawable.setTransformDirty`. -/
def Drawable.setTransformDirty (d : Drawable K) : Drawable K :=
  { d with
    transformDirty := true
    inverseTransformDirty := true
    transformedHullDirty := true }

/-- `Drawable.updatePosition`: update (rounding to integers) only when the
given pair differs from the stored one. -/
def Drawable.updatePosition (d : Drawable K) (p : K × K) : Drawable K :=
  if d.position.1 ≠ p.1 ∨ d.position.2 ≠ p.2 then
    { d.setTransformDirty with position := (jsRound p.1, jsRound p.2) }
  else d

/-- `Drawable.updateDirection`. -/
def Drawable.updateDirection (d : Drawable K) (dir : K) : Drawable K :=
  if d.direction ≠ dir then
    { d.setTransformDirty with direction := dir, rotationTransformDirty := true }
  else d

/-- `Drawable.updateScale`. -/
def Drawable.updateScale (d : Drawable K) (s : K × K) : Drawable K :=
  if d.scale.1 ≠ s.1 ∨ d.scale.2 ≠ s.2 then
    { d.setTransformDirty with
      scale := s
      rotationCenterDirty := true
      skinScaleDirty := true }
  else d

/-- `Drawable.updateEffect`: set or clear the effect's mask bit according to
the JS truthiness of the raw value (`&= ~mask` operates on 32-bit integers),
store the converted value, and dirty the convex hull for shape-changing
effects. -/
def Drawable.updateEffect (T : Trig K) (d : Drawable K) (e : EffectName)
    (raw : K) : Drawable K :=
  let bits := if raw ≠ 0 then d.enabledEffects ||| e.mask
    else d.enabledEffects &&& (4294967295 ^^^ e.mask)
  let d1 := { d with
    enabledEffects := bits
    effects := Function.update d.effects e (converter T e raw) }
  if e.shapeChanges then { d1 with convexHullDirty := true } else d1

/-- First block of `Drawable._calculateTransform`: refresh the cached rotation
matrix when the direction changed. -/
def Drawable.refreshRotation (T : Trig K) (d : Drawable K) : Drawable K :=
  if d.rotationTransformDirty then
    let rotation := (90 - d.direction) * T.pi / 180
    let c := T.cos rotation
    let s := T.sin rotation
    { d with
      rotationMatrix := ⟨c, s, -s, c, d.rotationMatrix.m4, d.rotationMatrix.m5⟩
      rotationTransformDirty := false }
  else d

/-- Second block of `Drawable._calculateTransform`: adjust the rotation center
relative to the skin (guarded by `dirty && skin !== null`). -/
def Drawable.refreshRotationCenter (d : Drawable K) : Drawable K :=
  match d.rotationCenterDirty, d.skin with
  | true, some sk =>
    { d with
      rotationCenter :=
        (sk.rotationCenter.1 * sk.sizeRatio, sk.rotationCenter.2 * sk.sizeRatio)
      rotationCenterDirty := false }
  | _, _ => d

/-- Third block of `Drawable._calculateTransform`: refresh the skin scale
(scale percentage over size ratio with the Y axis negated). -/
def Drawable.refreshSkinScale (d : Drawable K) : Drawable K :=
  match d.skinScaleDirty, d.skin with
  | true, some sk =>
    { d with
      skinScale :=
        (d.scale.1 * (1 / 100) / sk.sizeRatio,
         d.scale.2 * (-1 / 100) / sk.sizeRatio)
      skinScaleDirty := false }
  | _, _ => d

/-- Final block of `Drawable._calculateTransform`: compose the 2×3 transform
from the cached rotation matrix, skin scale, rotation center and position. -/
def Drawable.composeTransform (d : Drawable K) : Drawable K :=
  let t0 := d.rotationMatrix.m0 * d.skinScale.1
  let t1 := d.rotationMatrix.m1 * d.skinScale.1
  let t2 := d.rotationMatrix.m2 * d.skinScale.2
  let t3 := d.rotationMatrix.m3 * d.skinScale.2
  { d with
    transformMatrix :=
      ⟨t0, t1, t2, t3,
       t0 * -d.rotationCenter.1 + t2 * -d.rotationCenter.2 + d.position.1,
       t1 * -d.rotationCenter.1 + t3 * -d.rotationCenter.2 + d.position.2⟩
    transformDirty := false }

/-- `Drawable._calculateTransform`: the three refresh blocks followed by the
composition of the final transform. -/
def Drawable.calculateTransform (T : Trig K) (d : Drawable K) : Drawable K :=
  (((d.refreshRotation T).refreshRotationCenter).refreshSkinScale).composeTransform

/-- `Drawable.getTransform`: recompute the transform only when dirty; returns
the updated drawable together with the returned matrix. -/
def Drawable.getTransform (T : Trig K) (d : Drawable K) : Drawable K × Mat2d K :=
  let d1 := if d.transformDirty then d.calculateTransform T else d
  (d1, d1.transformMatrix)

/-- Second half of `Drawable.updateMatrix`: recompute the cached inverse when
dirty (the dirty flag is cleared even when `mat2d.invert` fails and leaves
the cached inverse untouched). -/
def Drawable.refreshInverse (d : Drawable K) : Drawable K :=
  if d.inverseTransformDirty then
    match d.transformMatrix.invert with
    | some inv => { d with inverseMatrix := inv, inverseTransformDirty := false }
    | none => { d with inverseTransformDirty := false }
  else d

/-- `Drawable.updateMatrix`: refresh the transform when dirty, then refresh
the cached inverse. -/
def Drawable.updateMatrix (T : Trig K) (d : Drawable K) : Drawable K :=
  (if d.transformDirty then d.calculateTransform T else d).refreshInverse

/-- The transform determined directly by the logical state (position, scale,
direction) and the skin: the value `_calculateTransform` produces when every
cache is dirty. -/
def pureTransform (T : Trig K) (dir : K) (scl : K × K) (pos : K × K)
    (sk : SkinData K) : Mat2d K :=
  let c := T.cos ((90 - dir) * T.pi / 180)
  let s := T.sin ((90 - dir) * T.pi / 180)
  let center : K × K :=
    (sk.rotationCenter.1 * sk.sizeRatio, sk.rotationCenter.2 * sk.sizeRatio)
  let ss : K × K := (scl.1 * (1 / 100) / sk.sizeRatio, scl.2 * (-1 / 100) / sk.sizeRatio)
  ⟨c * ss.1, s * ss.1, -s * ss.2, c * ss.2,
   c * ss.1 * -center.1 + -s * ss.2 * -center.2 + pos.1,
   s * ss.1 * -center.1 + c * ss.2 * -center.2 + pos.2⟩

/-- Cache coherence: whenever a dirty flag is clear, the corresponding cached
value agrees with the value recomputation would produce. -/
def Coherent (T : Trig K) (d : Drawable K) : Prop :=
  (d.rotationTransformDirty = false →
    d.rotationMatrix.m0 = T.cos ((90 - d.direction) * T.pi / 180) ∧
    d.rotationMatrix.m1 = T.sin ((90 - d.direction) * T.pi / 180) ∧
    d.rotationMatrix.m2 = -T.sin ((90 - d.direction) * T.pi / 180) ∧
    d.rotationMatrix.m3 = T.cos ((90 - d.direction) * T.pi / 180)) ∧
  (d.rotationCenterDirty = false → ∀ sk, d.skin = some sk →
    d.rotationCenter =
      (sk.rotationCenter.1 * sk.sizeRatio, sk.rotationCenter.2 * sk.sizeRatio)) ∧
  (d.skinScaleDirty = false → ∀ sk, d.skin = some sk →
    d.skinScale =
      (d.scale.1 * (1 / 100) / sk.sizeRatio, d.scale.2 * (-1 / 100) / sk.sizeRatio)) ∧
  (d.transformDirty = false → ∀ sk, d.skin = some sk →
    d.transformMatrix = pureTransform T d.direction d.scale d.position sk) ∧
  (d.inverseTransformDirty = false →
    d.transformDirty = false ∧
    (d.transformMatrix.det ≠ 0 → d.transformMatrix.invert = some d.inverseMatrix))

/-- A property update delivered to the drawable: one
`updatePosition` / `updateDirection` / `updateScale` call. -/
inductive Upd (K : Type) where
  | pos (p : K × K)
  | dir (v : K)
  | scl (s : K × K)

/-- Apply one update to a drawable. -/
def applyUpd (d : Drawable K) : Upd K → Drawable K
  | .pos p => d.updatePosition p
  | .dir v => d.updateDirection v
  | .scl s => d.updateScale s

/-- Apply a sequence of updates, left to right. -/
def applyUpds (d : Drawable K) (us : List (Upd K)) : Drawable K :=
  us.foldl applyUpd d

/-- Concrete trig interpretation used by witnesses (the theorems hold for
every interpretation). -/
def trigW : Trig ℚ := ⟨fun _ => 1, fun _ => 0, 3⟩

/-- Concrete skin used by witnesses. -/
def skW : SkinData ℚ := ⟨(5, 7), 2⟩

/-- Concrete drawable used by witnesses. -/
def dW : Drawable ℚ := Drawable.init trigW (some skW)

/-- Concrete update sequence used by the C1 witness. -/
def updsW : List (Upd ℚ) := [Upd.pos (3, 4), Upd.dir 45]

/-- Rounding used by `Uint8ClampedArray` stores: round to the nearest
integer, ties to even. -/
def roundTiesEven (x : ℚ) : ℤ :=
  if x - ⌊x⌋ < 1 / 2 then ⌊x⌋
  else if 1 / 2 < x - ⌊x⌋ then ⌊x⌋ + 1
  else if ⌊x⌋ % 2 = 0 then ⌊x⌋ else ⌊x⌋ + 1

/-- A store into a `Uint8ClampedArray` cell: clamp to `[0, 255]` and round
(ties to even). -/
def u8clamp (x : ℚ) : ℕ :=
  if x ≤ 0 then 0 else if 255 ≤ x then 255 else (roundTiesEven x).toNat

/-- `Silhouette`: dimensions plus the colour buffer, which is `none` until
`update` has been called (`this._colorData = null`). -/
structure Silhouette where
  width : ℕ
  height : ℕ
  colorData : Option (ℕ → ℕ)

/-- `Silhouette.js` free function `getPoint`: alpha at a pixel, `0` outside
the buffer bounds. -/
def getPoint (w h : ℕ) (data : ℕ → ℕ) (x y : ℤ) : ℕ :=
  if (w : ℤ) ≤ x ∨ (h : ℤ) ≤ y ∨ x < 0 ∨ y < 0 then 0
  else data ((y.toNat * w + x.toNat) * 4 + 3)

/-- `Silhouette.js` free function `getColor4b`: RGBA at a pixel, transparent
black outside the buffer bounds. -/
def getColor4b (w h : ℕ) (data : ℕ → ℕ) (x y : ℤ) : ℕ × ℕ × ℕ × ℕ :=
  if (w : ℤ) ≤ x ∨ (h : ℤ) ≤ y ∨ x < 0 ∨ y < 0 then (0, 0, 0, 0)
  else
    ((data ((y.toNat * w + x.toNat) * 4)),
     (data ((y.toNat * w + x.toNat) * 4 + 1)),
     (data ((y.toNat * w + x.toNat) * 4 + 2)),
     (data ((y.toNat * w + x.toNat) * 4 + 3)))

/-- `Silhouette.isTouchingNearest`; before `update` the guard
`if (!this._colorData) return;` yields `undefined`, which is falsy. -/
def Silhouette.isTouchingNearest (s : Silhouette) (v : ℚ × ℚ) : Bool :=
  match s.colorData with
  | none => false
  | some data =>
    decide (0 < getPoint s.width s.height data
      ⌊v.1 * ((s.width : ℚ) - 1)⌋ ⌊v.2 * ((s.height : ℚ) - 1)⌋)

/-- `Silhouette.isTouchingLinear`: true when any of the four pixels used for
bilinear interpolation has positive alpha. -/
def Silhouette.isTouchingLinear (s : Silhouette) (v : ℚ × ℚ) : Bool :=
  match s.colorData with
  | none => false
  | some data =>
    let x := ⌊v.1 * ((s.width : ℚ) - 1)⌋
    let y := ⌊v.2 * ((s.height : ℚ) - 1)⌋
    decide (0 < getPoint s.width s.height data x y) ||
    decide (0 < getPoint s.width s.height data (x + 1) y) ||
    decide (0 < getPoint s.width s.height data x (y + 1)) ||
    decide (0 < getPoint s.width s.height data (x + 1) (y + 1))

/-- `Silhouette.colorAtNearest`; the constructor overrides it with
`(_, dst) => dst.fill(0)` until `update` installs the colour buffer. -/
def Silhouette.colorAtNearest (s : Silhouette) (v : ℚ × ℚ) : ℕ × ℕ × ℕ × ℕ :=
  match s.colorData with
  | none => (0, 0, 0, 0)
  | some data =>
    getColor4b s.width s.height data
      ⌊v.1 * ((s.width : ℚ) - 1)⌋ ⌊v.2 * ((s.height : ℚ) - 1)⌋

/-- `Silhouette.colorAtLinear`: blend of the four surrounding samples with
weights `(1 − x1D)/x1D` and `(1 − y1D)/y1D`, each channel written through the
`Uint8ClampedArray` store conversion. The constructor override applies until
`update`. -/
def Silhouette.colorAtLinear (s : Silhouette) (v : ℚ × ℚ) : ℕ × ℕ × ℕ × ℕ :=
  match s.colorData with
  | none => (0, 0, 0, 0)
  | some data =>
    let x := v.1 * ((s.width : ℚ) - 1)
    let y := v.2 * ((s.height : ℚ) - 1)
    let x1D := jsMod x 1
    let y1D := jsMod y 1
    let x0D := 1 - x1D
    let y0D := 1 - y1D
    let x0y0 := getColor4b s.width s.height data ⌊x⌋ ⌊y⌋
    let x1y0 := getColor4b s.width s.height data (⌊x⌋ + 1) ⌊y⌋
    let x0y1 := getColor4b s.width s.height data ⌊x⌋ (⌊y⌋ + 1)
    let x1y1 := getColor4b s.width s.height data (⌊x⌋ + 1) (⌊y⌋ + 1)
    (u8clamp (x0y0.1 * x0D * y0D + x0y1.1 * x0D * y1D +
              x1y0.1 * x1D * y0D + x1y1.1 * x1D * y1D),
     u8clamp (x0y0.2.1 * x0D * y0D + x0y1.2.1 * x0D * y1D +
              x1y0.2.1 * x1D * y0D + x1y1.2.1 * x1D * y1D),
     u8clamp (x0y0.2.2.1 * x0D * y0D + x0y1.2.2.1 * x0D * y1D +
              x1y0.2.2.1 * x1D * y0D + x1y1.2.2.1 * x1D * y1D),
     u8clamp (x0y0.2.2.2 * x0D * y0D + x0y1.2.2.2 * x0D * y1D +
              x1y0.2.2.2 * x1D * y0D + x1y1.2.2.2 * x1D * y1D))

/-- `RenderCanvas.setBackgroundColor`: the components, given in `[0, 1]`, are
scaled by 255 and stored in the `Uint8ClampedArray` `_backgroundColor3b`. -/
def setBackgroundColor (r g b : ℚ) : ℕ × ℕ × ℕ :=
  (u8clamp (r * 255), u8clamp (g * 255), u8clamp (b * 255))

/-- Final step of `RenderCanvas.sampleColor3b` after the loop: the remaining
alpha is filled with the draw scene's clear colour (opaque white). -/
def sc3bFill (dst : ℕ × ℕ × ℕ) (a : ℚ) : ℕ × ℕ × ℕ :=
  (u8clamp (dst.1 + a * 255), u8clamp (dst.2.1 + a * 255), u8clamp (dst.2.2 + a * 255))

/-- The loop of `RenderCanvas.sampleColor3b`: add each sampled colour times
the remaining alpha into the accumulator, update the remaining alpha by
`(1 − sampledAlpha/255)`, and stop once the remaining alpha is `0`. -/
def sc3bGo (dst : ℕ × ℕ × ℕ) (a : ℚ) : List (ℕ × ℕ × ℕ × ℕ) → ℕ × ℕ × ℕ
  | [] => sc3bFill dst a
  | c :: rest =>
    if a = 0 then sc3bFill dst a
    else
      sc3bGo
        (u8clamp (dst.1 + c.1 * a), u8clamp (dst.2.1 + c.2.1 * a),
         u8clamp (dst.2.2 + c.2.2.1 * a))
        (a * (1 - c.2.2.2 / 255)) rest

/-- `RenderCanvas.sampleColor3b`, with each drawable represented by the RGBA
bytes `Drawable.sampleColor4b` produces for it at the sampled point (topmost
drawable first). -/
def sampleColor3b (samples : List (ℕ × ℕ × ℕ × ℕ)) : ℕ × ℕ × ℕ :=
  sc3bGo (0, 0, 0) 1 samples

/-- JS `array.splice(start, 0, x)`: insertion clamps the start index to the
array length (our traces never produce negative indices). -/
def jsInsert (l : List ℤ) (n : ℕ) (x : ℤ) : List ℤ :=
  l.insertIdx (min n l.length) x

/-- A layer group record: its position in the group ordering and the absolute
index at which the group starts in the draw list. -/
structure LayerGroup where
  groupIndex : ℕ
  drawListOffset : ℤ
deriving DecidableEq

/-- The draw-list related state of a `RenderCanvas`. -/
structure DLState where
  drawList : List ℤ
  groupOrdering : List String
  layerGroups : String → Option LayerGroup
  nextDrawableId : ℤ

/-- `RenderCanvas.setLayerGroupOrdering`: record the ordering and give every
named group its index with offset `0`. -/
def setLayerGroupOrdering (st : DLState) (names : List String) : DLState :=
  { st with
    groupOrdering := names
    layerGroups := names.enum.foldl
      (fun f p => Function.update f p.2 (some ⟨p.1, 0⟩)) st.layerGroups }

/-- `RenderCanvas._endIndexForKnownLayerGroup`: exclusive end of a group's
range (the next group's offset, or the draw list length for the last
group). -/
def endIndexForKnownLayerGroup (st : DLState) (lg : LayerGroup) : ℤ :=
  if lg.groupIndex = st.groupOrdering.length - 1 then st.drawList.length
  else
    match st.groupOrdering.get? (lg.groupIndex + 1) with
    | some name =>
      match st.layerGroups name with
      | some lg2 => lg2.drawListOffset
      | none => 0
    | none => 0

/-- Whether the offsets are incremented or decremented
(`_updateOffsets('add' | 'delete', …)`). -/
inductive UpdateType where
  | add
  | delete
deriving DecidableEq

/-- `RenderCanvas._updateOffsets`: shift the offsets of every group after the
given ordering index by ±1. -/
def updateOffsets (st : DLState) (t : UpdateType) (idx : ℕ) : DLState :=
  { st with
    layerGroups :=
      (List.range st.groupOrdering.length).foldl
        (fun f i =>
          if idx + 1 ≤ i then
            match st.groupOrdering.get? i with
            | some name =>
              match f name with
              | some lg =>
                Function.update f name
                  (some ⟨lg.groupIndex,
                    match t with
                    | .add => lg.drawListOffset + 1
                    | .delete => lg.drawListOffset - 1⟩)
              | none => f
            | none => f
          else f)
        st.layerGroups }

/-- `RenderCanvas._addToDrawList`: insert the id at the end of its group's
range, then shift the later groups' offsets. -/
def addToDrawList (st : DLState) (id : ℤ) (group : String) : DLState :=
  match st.layerGroups group with
  | none => st
  | some lg =>
    let drawListOffset := endIndexForKnownLayerGroup st lg
    let st1 := { st with drawList := jsInsert st.drawList drawListOffset.toNat id }
    updateOffsets st1 .add lg.groupIndex

/-- `RenderCanvas.createDrawable` (draw-list part): refuse unknown layer
groups, otherwise allocate the next id and add it to the group. -/
def createDrawable (st : DLState) (group : String) : DLState × Option ℤ :=
  match st.layerGroups group with
  | none => (st, none)
  | some _ =>
    let id := st.nextDrawableId
    let st1 := { st with nextDrawableId := id + 1 }
    (addToDrawList st1 id group, some id)

/-- First index in `[start, stop)` holding `id`, mirroring the linear scans of
`destroyDrawable` and `setDrawableOrder`. -/
def findIndexInRange (l : List ℤ) (start stop : ℕ) (id : ℤ) : Option ℕ :=
  (List.range' start (stop - start)).find? (fun i => l.get? i = some id)

/-- `RenderCanvas.destroyDrawable` (draw-list part): scan the group's range
for the id; when found, remove it and shift later offsets, otherwise warn and
leave the list untouched. -/
def destroyDrawable (st : DLState) (id : ℤ) (group : String) : DLState :=
  match st.layerGroups group with
  | none => st
  | some lg =>
    let endIndex := endIndexForKnownLayerGroup st lg
    match findIndexInRange st.drawList lg.drawListOffset.toNat endIndex.toNat id with
    | some k => updateOffsets { st with drawList := st.drawList.eraseIdx k } .delete lg.groupIndex
    | none => st

/-- `RenderCanvas.setDrawableOrder`: find the id inside the group's range,
remove it, clamp the requested order (Infinity is `⊤`) to
`[startIndex + optMin, endIndex]` with `endIndex` computed before the
removal, and reinsert. -/
def setDrawableOrder (st : DLState) (id : ℤ) (order : WithTop ℤ) (group : String)
    (optIsRelative : Bool) (optMin : ℤ) : DLState × Option (WithTop ℤ) :=
  match st.layerGroups group with
  | none => (st, none)
  | some lg =>
    let startIndex := lg.drawListOffset
    let endIndex := endIndexForKnownLayerGroup st lg
    match findIndexInRange st.drawList startIndex.toNat endIndex.toNat id with
    | none => (st, none)
    | some oldIndex =>
      if order = 0 then (st, some ((oldIndex : ℤ) : WithTop ℤ))
      else
        let removed := st.drawList.eraseIdx oldIndex
        let newIndex0 : WithTop ℤ :=
          if optIsRelative then order + ((oldIndex : ℤ) : WithTop ℤ) else order
        let possibleMin : ℤ := optMin + startIndex
        let minv : ℤ :=
          if startIndex ≤ possibleMin ∧ possibleMin < endIndex then possibleMin
          else startIndex
        let newIndex1 := max newIndex0 ((minv : ℤ) : WithTop ℤ)
        let newIndex2 := min newIndex1 ((endIndex : ℤ) : WithTop ℤ)
        let n : ℕ := match newIndex2 with
          | ⊤ => 0
          | (m : ℤ) => m.toNat
        ({ st with drawList := jsInsert removed n id }, some newIndex2)

/-- Initial renderer draw-list state. -/
def dlInit : DLState := ⟨[], [], fun _ => none, 0⟩

/-- The configured two-group state used by the C4 failing input. -/
def dlW1 : DLState := setLayerGroupOrdering dlInit ["a", "b"]

/-- After creating one drawable (id 0) in group "a". -/
def dlW2 : DLState := (createDrawable dlW1 "a").1

/-- After creating a second drawable (id 1) in group "b". -/
def dlW3 : DLState := (createDrawable dlW2 "b").1

/-- After `setDrawableOrder(0, Infinity, "a")`. -/
def dlW4 : DLState := (setDrawableOrder dlW3 0 ⊤ "a" false 0).1

/-- The `determinant` helper of `_getConvexHullPointsForDrawable`: positive
when `AC` is counter-clockwise from `AB`. -/
def hullDet (A B C : ℚ × ℚ) : ℚ :=
  (B.1 - A.1) * (C.2 - A.2) - (B.2 - A.2) * (C.1 - A.1)

/-- Left-to-right scan of one pixel row: the first column whose mid-pixel
coordinate touches the silhouette (`isTouchingLinear`). -/
def leftScanX (touch : ℚ × ℚ → Bool) (W H y : ℕ) : Option ℕ :=
  (List.range W).find? (fun x => touch (((x : ℚ) + 1 / 2) / W, ((y : ℚ) + 1 / 2) / H))

/-- Right-to-left scan of one pixel row. -/
def rightScanX (touch : ℚ × ℚ → Bool) (W H y : ℕ) : Option ℕ :=
  (List.range W).reverse.find?
    (fun x => touch (((x : ℚ) + 1 / 2) / W, ((y : ℚ) + 1 / 2) / H))

/-- Pop left-hull points while appending the new point fails to make a
counter-clockwise turn (`determinant ≤ 0`); the stack head is the most
recently appended point. -/
def popLeft (stack : List (ℚ × ℚ)) (p : ℚ × ℚ) : List (ℚ × ℚ) :=
  match stack with
  | a :: b :: rest => if hullDet a b p > 0 then a :: b :: rest else popLeft (b :: rest) p
  | s => s

/-- Pop right-hull points with the opposite turn sign (`determinant ≥ 0`). -/
def popRight (stack : List (ℚ × ℚ)) (p : ℚ × ℚ) : List (ℚ × ℚ) :=
  match stack with
  | a :: b :: rest => if hullDet a b p < 0 then a :: b :: rest else popRight (b :: rest) p
  | s => s

/-- One iteration of the row loop of `_getConvexHullPointsForDrawable`: skip
the row when the left scan finds no touching pixel, otherwise push the
leftmost point onto the left hull and the rightmost point onto the right
hull (when the right scan finds nothing the JS variable `currentPoint` still
holds the left point — unreachable since the left scan succeeded). -/
def hullRowStep (touch : ℚ × ℚ → Bool) (W H : ℕ)
    (st : List (ℚ × ℚ) × List (ℚ × ℚ)) (y : ℕ) : List (ℚ × ℚ) × List (ℚ × ℚ) :=
  match leftScanX touch W H y with
  | none => st
  | some xl =>
    let pl : ℚ × ℚ := ((xl : ℚ) + 1 / 2, (y : ℚ) + 1 / 2)
    let pr : ℚ × ℚ :=
      match rightScanX touch W H y with
      | some xr => ((xr : ℚ) + 1 / 2, (y : ℚ) + 1 / 2)
      | none => pl
    (pl :: popLeft st.1 pl, pr :: popRight st.2 pr)

/-- `RenderCanvas._getConvexHullPointsForDrawable`, with the drawable
abstracted to its visibility, its skin size and its per-point
`isTouchingLinear` predicate: left-hull points in row order followed by
right-hull points in reverse row order. -/
def convexHullPoints (visible : Bool) (W H : ℕ)
    (touch : ℚ × ℚ → Bool) : List (ℚ × ℚ) :=
  if visible = false ∨ W = 0 ∨ H = 0 then []
  else
    let hulls := (List.range H).foldl (hullRowStep touch W H) ([], [])
    hulls.1.reverse ++ hulls.2

/-- A hull point originating from a touching pixel midpoint. -/
def GoodPoint (W H : ℕ) (touch : ℚ × ℚ → Bool) (p : ℚ × ℚ) : Prop :=
  ∃ x < W, ∃ y < H, touch (((x : ℚ) + 1 / 2) / W, ((y : ℚ) + 1 / 2) / H) = true ∧
    p = ((x : ℚ) + 1 / 2, (y : ℚ) + 1 / 2)

/-- Reference value: the left hull stack after scanning `k` all-opaque rows
(head is the most recent point). -/
def rectLeft (k : ℕ) : List (ℚ × ℚ) :=
  if k = 0 then []
  else if k = 1 then [(1 / 2, 1 / 2)]
  else [(1 / 2, (k : ℚ) - 1 / 2), (1 / 2, 1 / 2)]

/-- Reference value: the right hull stack after scanning `k` all-opaque
rows. -/
def rectRight (W k : ℕ) : List (ℚ × ℚ) :=
  if k = 0 then []
  else if k = 1 then [((W : ℚ) - 1 / 2, 1 / 2)]
  else [((W : ℚ) - 1 / 2, (k : ℚ) - 1 / 2), ((W : ℚ) - 1 / 2, 1 / 2)]

/-- Modelled from the spec: `Rectangle.js` is required by `RenderCanvas.js`
but its source is not included under `src/`; §3 of the spec describes an
axis-aligned box with `left ≤ right`, `bottom ≤ top`, supporting
intersection, union, integer snapping and clamping to stage bounds. -/
structure Rect where
  left : ℚ
  right : ℚ
  bottom : ℚ
  top : ℚ
deriving DecidableEq

/-- Modelled from the spec: closed-box overlap test used by the touching and
picking queries. -/
def Rect.intersects (a b : Rect) : Bool :=
  decide (a.left ≤ b.right ∧ b.left ≤ a.right ∧ a.bottom ≤ b.top ∧ b.bottom ≤ a.top)

/-- Modelled from the spec: `Rectangle.intersect(a, b)` — the intersection
box. -/
def Rect.intersectWith (a b : Rect) : Rect :=
  ⟨max a.left b.left, min a.right b.right, max a.bottom b.bottom, min a.top b.top⟩

/-- Modelled from the spec: `Rectangle.union(a, b)` — the bounding box of the
union. -/
def Rect.unionWith (a b : Rect) : Rect :=
  ⟨min a.left b.left, max a.right b.right, min a.bottom b.bottom, max a.top b.top⟩

/-- Modelled from the spec: clamp every edge into the stage bounds. -/
def Rect.clampTo (r : Rect) (l rr b t : ℚ) : Rect :=
  ⟨min (max r.left l) rr, max (min r.right rr) l,
   min (max r.bottom b) t, max (min r.top t) b⟩

/-- Modelled from the spec: integer snapping — edges pushed outward to
integers. -/
def Rect.snapToInt (r : Rect) : Rect :=
  ⟨(⌊r.left⌋ : ℚ), (⌈r.right⌉ : ℚ), (⌊r.bottom⌋ : ℚ), (⌈r.top⌉ : ℚ)⟩

/-- Modelled from the spec: width of the box. -/
def Rect.width (r : Rect) : ℚ := |r.left - r.right|

/-- Modelled from the spec: height of the box. -/
def Rect.height (r : Rect) : ℚ := |r.top - r.bottom|

/-- `colorMatches` (`RenderCanvas.js`): compare the top 5 bits of red and
green and the top 4 bits of blue. -/
def colorMatches (a b : ℕ × ℕ × ℕ) : Bool :=
  decide (a.1 &&& 248 = b.1 &&& 248 ∧ a.2.1 &&& 248 = b.2.1 &&& 248 ∧
    a.2.2 &&& 240 = b.2.2 &&& 240)

/-- `maskMatches` (`RenderCanvas.js`): nonzero alpha and the top 6 bits of
each colour channel equal. -/
def maskMatches (a : ℕ × ℕ × ℕ × ℕ) (m : ℕ × ℕ × ℕ) : Bool :=
  decide (0 < a.2.2.2 ∧ a.1 &&& 252 = m.1 &&& 252 ∧
    a.2.1 &&& 252 = m.2.1 &&& 252 ∧ a.2.2.1 &&& 252 = m.2.2 &&& 252)

/-- A drawable as seen by the CPU query engine: its visibility, whether it
has a skin with a texture, whether the skin is a text bubble, its
`getFastBounds()` box, its `isTouching` predicate and its
`Drawable.sampleColor4b` samplers (with and without the ghost effect
excluded by the mask). -/
structure QDrawable where
  visible : Bool
  hasSkin : Bool
  isBubble : Bool
  fastBounds : Rect
  touches : ℚ × ℚ → Bool
  sampleMask : ℚ × ℚ → ℕ × ℕ × ℕ × ℕ
  sample : ℚ × ℚ → ℕ × ℕ × ℕ × ℕ

/-- The renderer state consulted by the touch / pick queries. -/
structure RenderState where
  xLeft : ℚ
  xRight : ℚ
  yBottom : ℚ
  yTop : ℚ
  nativeSize : ℚ × ℚ
  clientWidth : ℚ
  clientHeight : ℚ
  backgroundColor3b : ℕ × ℕ × ℕ
  drawList : List ℤ
  drawables : ℤ → QDrawable

/-- `RenderCanvas._visibleDrawList`. -/
def visibleDrawList (st : RenderState) : List ℤ :=
  st.drawList.filter (fun id => (st.drawables id).visible)

/-- `RenderCanvas._touchingBounds`: `null` without a skin texture; otherwise
the fast bounds clamped to the stage and snapped to integers, `null` when
degenerate. -/
def touchingBounds (st : RenderState) (id : ℤ) : Option Rect :=
  let d := st.drawables id
  if d.hasSkin = false then none
  else
    let bounds := (d.fastBounds.clampTo st.xLeft st.xRight st.yBottom st.yTop).snapToInt
    if bounds.width = 0 ∨ bounds.height = 0 then none else some bounds

/-- `RenderCanvas._candidatesTouching`: walk the candidate ids backwards
(topmost first), skip the queried drawable and text bubbles, keep visible
drawables with a skin whose integer-snapped fast bounds intersect the
queried drawable's touching bounds, pairing each kept id with the
intersection box. -/
def candidatesTouching (st : RenderState) (id : ℤ) (candidateIDs : List ℤ) :
    List (ℤ × Rect) :=
  match touchingBounds st id with
  | none => []
  | some bounds =>
    candidateIDs.reverse.filterMap (fun cid =>
      if cid = id then none
      else
        let d := st.drawables cid
        if d.isBubble then none
        else if d.hasSkin && d.visible then
          let candidateBounds := d.fastBounds.snapToInt
          if bounds.intersects candidateBounds then
            some (cid, bounds.intersectWith candidateBounds)
          else none
        else none)

/-- `RenderCanvas._candidatesBounds`: union of the candidates' intersection
boxes (`null` on an empty list). -/
def candidatesBounds (cands : List (ℤ × Rect)) : Option Rect :=
  match cands with
  | [] => none
  | c :: rest => some (rest.foldl (fun memo x => memo.unionWith x.2) c.2)

/-- The `y` values visited by `for (let y = bounds.bottom; y <= bounds.top;
y++)`. -/
def scanYs (b : Rect) : List ℚ :=
  (List.range (if b.bottom ≤ b.top then (⌊b.top - b.bottom⌋ + 1).toNat else 0)).map
    (fun k : ℕ => b.bottom + (k : ℚ))

/-- The `x` values visited by the inner loop. -/
def scanXs (b : Rect) : List ℚ :=
  (List.range (if b.left ≤ b.right then (⌊b.right - b.left⌋ + 1).toNat else 0)).map
    (fun k : ℕ => b.left + (k : ℚ))

/-- All points visited by the scan, y-major as in the source loop. -/
def scanPoints (b : Rect) : List (ℚ × ℚ) :=
  (scanYs b).flatMap (fun y => (scanXs b).map (fun x => (x, y)))

/-- Per-point test of the `isTouchingColor` scan: the mask-match (or touch)
predicate for the queried drawable, and the composited colour of the
candidate stack matching the target colour. -/
def touchPass (st : RenderState) (id : ℤ) (color3b : ℕ × ℕ × ℕ)
    (mask3b : Option (ℕ × ℕ × ℕ)) (cands : List (ℤ × Rect)) (p : ℚ × ℚ) : Bool :=
  (match mask3b with
   | some m => maskMatches ((st.drawables id).sampleMask p) m
   | none => (st.drawables id).touches p) &&
  colorMatches color3b
    (sampleColor3b (cands.map (fun c => (st.drawables c.1).sample p)))

/-- `RenderCanvas.isTouchingColor`: choose the scan region (the drawable's
own touching bounds when the target colour matches the background, otherwise
the union of candidate intersections, failing fast when there are no
candidates), then scan it point by point. -/
def isTouchingColor (st : RenderState) (id : ℤ) (color3b : ℕ × ℕ × ℕ)
    (mask3b : Option (ℕ × ℕ × ℕ)) : Bool :=
  match
    (if colorMatches color3b st.backgroundColor3b then touchingBounds st id
     else if candidatesTouching st id (visibleDrawList st) = [] then none
     else candidatesBounds (candidatesTouching st id (visibleDrawList st))) with
  | none => false
  | some bounds =>
    (scanYs bounds).any (fun y => (scanXs bounds).any (fun x =>
      touchPass st id color3b mask3b
        (candidatesTouching st id (visibleDrawList st)) (x, y)))

/-- Concrete render state for the C5 witness: one drawable without a skin
texture on a white-background stage. -/
def stW5 : RenderState where
  xLeft := -240
  xRight := 240
  yBottom := -180
  yTop := 180
  nativeSize := (480, 360)
  clientWidth := 480
  clientHeight := 360
  backgroundColor3b := (255, 255, 255)
  drawList := [0]
  drawables := fun _ =>
    ⟨true, false, false, ⟨0, 0, 0, 0⟩, fun _ => false, fun _ => (0, 0, 0, 0),
     fun _ => (0, 0, 0, 0)⟩

/-- Modelled from the spec: `RenderConstants.js` is not included under
`src/`; the spec describes pick as returning a drawable id or a sentinel
"none" id, which Scratch renderers define as `-1` (drawable ids start at
`ID_NONE + 1 = 0`). -/
def idNone : ℤ := -1

/-- `RenderCanvas.clientSpaceToScratchBounds`: scale the client point and
footprint into stage units, clamp the footprint to `[1, MAX_TOUCH_SIZE]`
(3×3), and build the integer-snapped scan rectangle. -/
def clientSpaceToScratchBounds (st : RenderState) (centerX centerY w h : ℚ) :
    Rect :=
  let clientToScratchX := st.nativeSize.1 / st.clientWidth
  let clientToScratchY := st.nativeSize.2 / st.clientHeight
  let w2 : ℤ := max 1 (min ⌊w * clientToScratchX + 1 / 2⌋ 3)
  let h2 : ℤ := max 1 (min ⌊h * clientToScratchY + 1 / 2⌋ 3)
  let x := centerX * clientToScratchX - ((w2 : ℚ) - 1) / 2
  let y := centerY * clientToScratchY + ((h2 : ℚ) - 1) / 2
  let xOfs : ℚ := if w2 % 2 = 1 then 0 else -(1 / 2)
  let yOfs : ℚ := if h2 % 2 = 1 then 0 else -(1 / 2)
  ⟨(⌊st.xLeft + x + xOfs⌋ : ℚ), (⌊st.xLeft + x + xOfs + (w2 : ℚ) - 1⌋ : ℚ),
   (⌈st.yTop - y + yOfs⌉ : ℚ), (⌈st.yTop - y + yOfs + (h2 : ℚ) - 1⌉ : ℚ)⟩

/-- Result of `pick`: the source returns the boolean `false` on its two
early-exit paths and an integer id otherwise. -/
inductive PickResult where
  | b (v : Bool)
  | id (n : ℤ)
deriving DecidableEq

/-- Insert into an ascending list (ascending numeric enumeration order of
JS array index keys). -/
def insertSorted (n : ℤ) : List ℤ → List ℤ
  | [] => [n]
  | m :: rest => if n ≤ m then n :: m :: rest else m :: insertSorted n rest

/-- Sort ascending. -/
def sortAsc (l : List ℤ) : List ℤ := l.foldr insertSorted []

/-- The candidate credited at a scan point: the last candidate in draw order
whose touch predicate holds (the source walks the candidate array
backwards and breaks at the first hit). -/
def pickTopmost (st : RenderState) (cands : List ℤ) (p : ℚ × ℚ) : Option ℤ :=
  cands.reverse.find? (fun cid => (st.drawables cid).touches p)

/-- The `hits` sparse array built by the scan loop of `pick`. -/
def pickHits (st : RenderState) (cands : List ℤ) (b : Rect) : ℤ → ℕ :=
  (scanPoints b).foldl
    (fun f p =>
      match pickTopmost st cands p with
      | some cid => Function.update f cid (f cid + 1)
      | none => f)
    (fun _ => 0)

/-- `RenderCanvas.pick`: filter the candidates to visible drawables whose
fast bounds intersect the scan rectangle (returning the boolean `false` when
none remain), accumulate per-pixel hits for the topmost touching candidate,
set `hits[ID_NONE] = 0`, and return the key with the strictly greatest hit
count, enumerating JS array index keys in ascending order with the `-1` key
last.  (The source's `-Infinity` bounds guard cannot fire in the rational
model.) -/
def pick (st : RenderState) (centerX centerY tw th : ℚ)
    (candidateIDs : Option (List ℤ)) : PickResult :=
  let bounds := clientSpaceToScratchBounds st centerX centerY tw th
  let cands := (candidateIDs.getD st.drawList).filter (fun id =>
    (st.drawables id).visible && bounds.intersects (st.drawables id).fastBounds)
  if cands = [] then .b false
  else
    let hits := Function.update (pickHits st cands bounds) idNone 0
    let keys := sortAsc ((cands.dedup).filter (fun cid => pickHits st cands bounds cid ≠ 0)) ++ [idNone]
    .id (keys.foldl (fun best k => if hits k > hits best then k else best) idNone)

/-- The filtered candidate list of `pick`: visible candidates whose fast
bounds intersect the scan rectangle. -/
def pickCands (st : RenderState) (cx cy tw th : ℚ) (opt : Option (List ℤ)) :
    List ℤ :=
  (opt.getD st.drawList).filter (fun id =>
    (st.drawables id).visible &&
    (clientSpaceToScratchBounds st cx cy tw th).intersects (st.drawables id).fastBounds)

/-- Concrete render state for the C6 counterexample and witness. -/
def stW6 : RenderState where
  xLeft := -240
  xRight := 240
  yBottom := -180
  yTop := 180
  nativeSize := (480, 360)
  clientWidth := 480
  clientHeight := 360
  backgroundColor3b := (255, 255, 255)
  drawList := [0]
  drawables := fun _ =>
    ⟨true, true, false, ⟨-240, 240, -180, 180⟩, fun _ => true,
     fun _ => (0, 0, 0, 255), fun _ => (0, 0, 0, 255)⟩

lemma coherent_init (T : Trig K) (sk : Option (SkinData K)) :
    Coherent T (Drawable.init T sk) := by
  simp [Coherent, Drawable.init]

lemma coherent_updatePosition (T : Trig K) (d : Drawable K) (p : K × K)
    (h : Coherent T d) : Coherent T (d.updatePosition p) := by
  obtain ⟨h1, h2, h3, h4, h5⟩ := h
  unfold Drawable.updatePosition Drawable.setTransformDirty
  split
  · refine ⟨by simpa using h1, by simpa using h2, by simpa using h3, by simp, by simp⟩
  · exact ⟨h1, h2, h3, h4, h5⟩

lemma coherent_updateDirection (T : Trig K) (d : Drawable K) (v : K)
    (h : Coherent T d) : Coherent T (d.updateDirection v) := by
  obtain ⟨h1, h2, h3, h4, h5⟩ := h
  unfold Drawable.updateDirection Drawable.setTransformDirty
  split
  · refine ⟨by simp, by simpa using h2, by simpa using h3, by simp, by simp⟩
  · exact ⟨h1, h2, h3, h4, h5⟩

lemma coherent_updateScale (T : Trig K) (d : Drawable K) (s : K × K)
    (h : Coherent T d) : Coherent T (d.updateScale s) := by
  obtain ⟨h1, h2, h3, h4, h5⟩ := h
  unfold Drawable.updateScale Drawable.setTransformDirty
  split
  · refine ⟨by simpa using h1, by simp, by simp, by simp, by simp⟩
  · exact ⟨h1, h2, h3, h4, h5⟩

lemma coherent_applyUpd (T : Trig K) (d : Drawable K) (u : Upd K)
    (h : Coherent T d) : Coherent T (applyUpd d u) := by
  cases u with
  | pos p => exact coherent_updatePosition T d p h
  | dir v => exact coherent_updateDirection T d v h
  | scl s => exact coherent_updateScale T d s h

lemma skin_updatePosition (d : Drawable K) (p : K × K) :
    (d.updatePosition p).skin = d.skin := by
  unfold Drawable.updatePosition Drawable.setTransformDirty
  split <;> rfl

lemma skin_updateDirection (d : Drawable K) (v : K) :
    (d.updateDirection v).skin = d.skin := by
  unfold Drawable.updateDirection Drawable.setTransformDirty
  split <;> rfl

lemma skin_updateScale (d : Drawable K) (s : K × K) :
    (d.updateScale s).skin = d.skin := by
  unfold Drawable.updateScale Drawable.setTransformDirty
  split <;> rfl

lemma skin_applyUpd (d : Drawable K) (u : Upd K) : (applyUpd d u).skin = d.skin := by
  cases u with
  | pos p => exact skin_updatePosition d p
  | dir v => exact skin_updateDirection d v
  | scl s => exact skin_updateScale d s

lemma coherent_applyUpds (T : Trig K) (d : Drawable K) (us : List (Upd K))
    (h : Coherent T d) : Coherent T (applyUpds d us) := by
  induction us generalizing d with
  | nil => exact h
  | cons u us ih => exact ih (applyUpd d u) (coherent_applyUpd T d u h)

lemma skin_applyUpds (d : Drawable K) (us : List (Upd K)) :
    (applyUpds d us).skin = d.skin := by
  induction us generalizing d with
  | nil => rfl
  | cons u us ih => rw [applyUpds, List.foldl_cons, ← applyUpds, ih, skin_applyUpd]

lemma refreshRotation_pres (T : Trig K) (d : Drawable K) :
    (d.refreshRotation T).position = d.position ∧
    (d.refreshRotation T).scale = d.scale ∧
    (d.refreshRotation T).direction = d.direction ∧
    (d.refreshRotation T).skin = d.skin ∧
    (d.refreshRotation T).rotationCenter = d.rotationCenter ∧
    (d.refreshRotation T).rotationCenterDirty = d.rotationCenterDirty ∧
    (d.refreshRotation T).skinScale = d.skinScale ∧
    (d.refreshRotation T).skinScaleDirty = d.skinScaleDirty ∧
    (d.refreshRotation T).inverseMatrix = d.inverseMatrix ∧
    (d.refreshRotation T).inverseTransformDirty = d.inverseTransformDirty := by
  unfold Drawable.refreshRotation
  split <;> simp

lemma refreshRotation_matrix (T : Trig K) (d : Drawable K)
    (h1 : d.rotationTransformDirty = false →
      d.rotationMatrix.m0 = T.cos ((90 - d.direction) * T.pi / 180) ∧
      d.rotationMatrix.m1 = T.sin ((90 - d.direction) * T.pi / 180) ∧
      d.rotationMatrix.m2 = -T.sin ((90 - d.direction) * T.pi / 180) ∧
      d.rotationMatrix.m3 = T.cos ((90 - d.direction) * T.pi / 180)) :
    (d.refreshRotation T).rotationMatrix.m0 = T.cos ((90 - d.direction) * T.pi / 180) ∧
    (d.refreshRotation T).rotationMatrix.m1 = T.sin ((90 - d.direction) * T.pi / 180) ∧
    (d.refreshRotation T).rotationMatrix.m2 = -T.sin ((90 - d.direction) * T.pi / 180) ∧
    (d.refreshRotation T).rotationMatrix.m3 = T.cos ((90 - d.direction) * T.pi / 180) := by
  unfold Drawable.refreshRotation
  split
  · simp
  · next h => exact h1 (by simpa using h)

lemma refreshRotationCenter_pres (d : Drawable K) :
    (d.refreshRotationCenter).position = d.position ∧
    (d.refreshRotationCenter).scale = d.scale ∧
    (d.refreshRotationCenter).direction = d.direction ∧
    (d.refreshRotationCenter).skin = d.skin ∧
    (d.refreshRotationCenter).rotationMatrix = d.rotationMatrix ∧
    (d.refreshRotationCenter).skinScale = d.skinScale ∧
    (d.refreshRotationCenter).skinScaleDirty = d.skinScaleDirty ∧
    (d.refreshRotationCenter).inverseMatrix = d.inverseMatrix ∧
    (d.refreshRotationCenter).inverseTransformDirty = d.inverseTransformDirty := by
  unfold Drawable.refreshRotationCenter
  split <;> simp

lemma refreshRotationCenter_center (d : Drawable K) (sk : SkinData K)
    (hsk : d.skin = some sk)
    (h2 : d.rotationCenterDirty = false → ∀ s, d.skin = some s →
      d.rotationCenter = (s.rotationCenter.1 * s.sizeRatio, s.rotationCenter.2 * s.sizeRatio)) :
    (d.refreshRotationCenter).rotationCenter =
      (sk.rotationCenter.1 * sk.sizeRatio, sk.rotationCenter.2 * sk.sizeRatio) := by
  cases hd : d.rotationCenterDirty with
  | false =>
    have : d.refreshRotationCenter = d := by
      unfold Drawable.refreshRotationCenter
      rw [hd]
    rw [this]
    exact h2 hd sk hsk
  | true =>
    unfold Drawable.refreshRotationCenter
    rw [hd, hsk]

lemma refreshSkinScale_pres (d : Drawable K) :
    (d.refreshSkinScale).position = d.position ∧
    (d.refreshSkinScale).scale = d.scale ∧
    (d.refreshSkinScale).direction = d.direction ∧
    (d.refreshSkinScale).skin = d.skin ∧
    (d.refreshSkinScale).rotationMatrix = d.rotationMatrix ∧
    (d.refreshSkinScale).rotationCenter = d.rotationCenter ∧
    (d.refreshSkinScale).inverseMatrix = d.inverseMatrix ∧
    (d.refreshSkinScale).inverseTransformDirty = d.inverseTransformDirty := by
  unfold Drawable.refreshSkinScale
  split <;> simp

lemma refreshSkinScale_scale (d : Drawable K) (sk : SkinData K)
    (hsk : d.skin = some sk)
    (h3 : d.skinScaleDirty = false → ∀ s, d.skin = some s →
      d.skinScale = (d.scale.1 * (1 / 100) / s.sizeRatio, d.scale.2 * (-1 / 100) / s.sizeRatio)) :
    (d.refreshSkinScale).skinScale =
      (d.scale.1 * (1 / 100) / sk.sizeRatio, d.scale.2 * (-1 / 100) / sk.sizeRatio) := by
  cases hd : d.skinScaleDirty with
  | false =>
    have : d.refreshSkinScale = d := by
      unfold Drawable.refreshSkinScale
      rw [hd]
    rw [this]
    exact h3 hd sk hsk
  | true =>
    unfold Drawable.refreshSkinScale
    rw [hd, hsk]

lemma composeTransform_pres (d : Drawable K) :
    (d.composeTransform).position = d.position ∧
    (d.composeTransform).scale = d.scale ∧
    (d.composeTransform).direction = d.direction ∧
    (d.composeTransform).skin = d.skin ∧
    (d.composeTransform).inverseMatrix = d.inverseMatrix ∧
    (d.composeTransform).inverseTransformDirty = d.inverseTransformDirty ∧
    (d.composeTransform).transformDirty = false := by
  unfold Drawable.composeTransform
  simp

lemma composeTransform_matrix (d : Drawable K) :
    (d.composeTransform).transformMatrix =
      ⟨d.rotationMatrix.m0 * d.skinScale.1,
       d.rotationMatrix.m1 * d.skinScale.1,
       d.rotationMatrix.m2 * d.skinScale.2,
       d.rotationMatrix.m3 * d.skinScale.2,
       d.rotationMatrix.m0 * d.skinScale.1 * -d.rotationCenter.1 +
         d.rotationMatrix.m2 * d.skinScale.2 * -d.rotationCenter.2 + d.position.1,
       d.rotationMatrix.m1 * d.skinScale.1 * -d.rotationCenter.1 +
         d.rotationMatrix.m3 * d.skinScale.2 * -d.rotationCenter.2 + d.position.2⟩ := rfl

lemma calculateTransform_fields (T : Trig K) (d : Drawable K) :
    (d.calculateTransform T).position = d.position ∧
    (d.calculateTransform T).scale = d.scale ∧
    (d.calculateTransform T).direction = d.direction ∧
    (d.calculateTransform T).skin = d.skin ∧
    (d.calculateTransform T).inverseMatrix = d.inverseMatrix ∧
    (d.calculateTransform T).inverseTransformDirty = d.inverseTransformDirty ∧
    (d.calculateTransform T).transformDirty = false := by
  unfold Drawable.calculateTransform
  obtain ⟨a1, a2, a3, a4, a5, a6, a7, a8, a9, a10⟩ := refreshRotation_pres T d
  obtain ⟨b1, b2, b3, b4, b5, b6, b7, b8, b9⟩ :=
    refreshRotationCenter_pres (d.refreshRotation T)
  obtain ⟨c1, c2, c3, c4, c5, c6, c7, c8⟩ :=
    refreshSkinScale_pres ((d.refreshRotation T).refreshRotationCenter)
  obtain ⟨e1, e2, e3, e4, e5, e6, e7⟩ :=
    composeTransform_pres (((d.refreshRotation T).refreshRotationCenter).refreshSkinScale)
  refine ⟨?_, ?_, ?_, ?_, ?_, ?_, e7⟩
  · rw [e1, c1, b1, a1]
  · rw [e2, c2, b2, a2]
  · rw [e3, c3, b3, a3]
  · rw [e4, c4, b4, a4]
  · rw [e5, c7, b8, a9]
  · rw [e6, c8, b9, a10]

lemma calculateTransform_matrix (T : Trig K) (d : Drawable K) (sk : SkinData K)
    (hco : Coherent T d) (hsk : d.skin = some sk) :
    (d.calculateTransform T).transformMatrix =
      pureTransform T d.direction d.scale d.position sk := by
  obtain ⟨h1, h2, h3, h4, h5⟩ := hco
  obtain ⟨a1, a2, a3, a4, a5, a6, a7, a8, a9, a10⟩ := refreshRotation_pres T d
  obtain ⟨b1, b2, b3, b4, b5, b6, b7, b8, b9⟩ :=
    refreshRotationCenter_pres (d.refreshRotation T)
  obtain ⟨c1, c2, c3, c4, c5, c6, c7, c8⟩ :=
    refreshSkinScale_pres ((d.refreshRotation T).refreshRotationCenter)
  obtain ⟨m0, m1, m2, m3⟩ := refreshRotation_matrix T d h1
  have hsk1 : (d.refreshRotation T).skin = some sk := by rw [a4, hsk]
  have hsk2 : ((d.refreshRotation T).refreshRotationCenter).skin = some sk := by
    rw [b4, hsk1]
  have hcen : ((d.refreshRotation T).refreshRotationCenter).rotationCenter =
      (sk.rotationCenter.1 * sk.sizeRatio, sk.rotationCenter.2 * sk.sizeRatio) := by
    refine refreshRotationCenter_center (d.refreshRotation T) sk hsk1 ?_
    intro hdirty s hs
    rw [a6] at hdirty
    rw [a4] at hs
    rw [a5]
    exact h2 hdirty s hs
  have hscl : (((d.refreshRotation T).refreshRotationCenter).refreshSkinScale).skinScale =
      (d.scale.1 * (1 / 100) / sk.sizeRatio, d.scale.2 * (-1 / 100) / sk.sizeRatio) := by
    have := refreshSkinScale_scale ((d.refreshRotation T).refreshRotationCenter) sk hsk2 ?_
    · rw [this, b2, a2]
    · intro hdirty s hs
      rw [b7, a8] at hdirty
      rw [b4, a4] at hs
      rw [b6, a7, b2, a2]
      exact h3 hdirty s hs
  unfold Drawable.calculateTransform
  rw [composeTransform_matrix]
  rw [hscl]
  rw [c6, hcen]
  rw [c5, b5]
  rw [c1, b1, a1]
  rw [m0, m1, m2, m3]
  unfold pureTransform
  rfl

lemma getTransform_matrix (T : Trig K) (d : Drawable K) (sk : SkinData K)
    (hco : Coherent T d) (hsk : d.skin = some sk) :
    (d.getTransform T).2 = pureTransform T d.direction d.scale d.position sk := by
  unfold Drawable.getTransform
  cases htd : d.transformDirty with
  | true =>
    simp only [htd, if_true]
    exact calculateTransform_matrix T d sk hco hsk
  | false =>
    simp only [htd, if_false]
    exact hco.2.2.2.1 htd sk hsk

lemma pureTransform_decomposed (T : Trig K) (dir : K) (scl pos : K × K)
    (sk : SkinData K) :
    pureTransform T dir scl pos sk =
      (Mat2d.translation pos).mul
        ((Mat2d.rotationOf (T.cos ((90 - dir) * T.pi / 180))
            (T.sin ((90 - dir) * T.pi / 180))).mul
          ((Mat2d.scaling
              (scl.1 * (1 / 100) / sk.sizeRatio, scl.2 * (-1 / 100) / sk.sizeRatio)).mul
            (Mat2d.translation
              (-(sk.rotationCenter.1 * sk.sizeRatio),
               -(sk.rotationCenter.2 * sk.sizeRatio))))) := by
  unfold pureTransform Mat2d.mul Mat2d.translation Mat2d.scaling Mat2d.rotationOf
  simp only [Mat2d.mk.injEq]
  refine ⟨by ring, by ring, by ring, by ring, by ring, by ring⟩

lemma updatePosition_noop (d : Drawable K) (p : K × K)
    (h : d.position.1 = p.1 ∧ d.position.2 = p.2) : d.updatePosition p = d := by
  unfold Drawable.updatePosition
  rw [if_neg]
  push_neg
  exact h

lemma updateDirection_noop (d : Drawable K) (v : K)
    (h : d.direction = v) : d.updateDirection v = d := by
  unfold Drawable.updateDirection
  rw [if_neg]
  simp [h]

lemma updateScale_noop (d : Drawable K) (s : K × K)
    (h : d.scale.1 = s.1 ∧ d.scale.2 = s.2) : d.updateScale s = d := by
  unfold Drawable.updateScale
  rw [if_neg]
  push_neg
  exact h

lemma Mat2d.invert_eq_none (m : Mat2d K) : m.invert = none ↔ m.det = 0 := by
  by_cases hd : m.m0 * m.m3 - m.m1 * m.m2 = 0 <;>
    simp [Mat2d.invert, Mat2d.det, hd]

lemma Mat2d.invert_apply (m inv : Mat2d K) (h : m.invert = some inv) (p : K × K) :
    inv.apply (m.apply p) = p := by
  unfold Mat2d.invert at h
  by_cases hd : m.m0 * m.m3 - m.m1 * m.m2 = 0
  · simp [hd] at h
  · simp only [hd, if_false, Option.some.injEq] at h
    subst h
    unfold Mat2d.apply
    obtain ⟨x, y⟩ := p
    simp only [Prod.mk.injEq]
    constructor
    · field_simp
      ring
    · field_simp
      ring

lemma refreshInverse_tm (d : Drawable K) :
    (d.refreshInverse).transformMatrix = d.transformMatrix := by
  unfold Drawable.refreshInverse
  split
  · split <;> rfl
  · rfl

lemma refreshInverse_invert (d : Drawable K)
    (hcached : d.inverseTransformDirty = false →
      d.transformMatrix.det ≠ 0 → d.transformMatrix.invert = some d.inverseMatrix)
    (hdet : ((d.refreshInverse).transformMatrix).det ≠ 0) :
    ((d.refreshInverse).transformMatrix).invert =
      some ((d.refreshInverse).inverseMatrix) := by
  rw [refreshInverse_tm] at hdet ⊢
  cases hitd : d.inverseTransformDirty with
  | true =>
    cases hinv : d.transformMatrix.invert with
    | some inv =>
      have hr : d.refreshInverse =
          { d with inverseMatrix := inv, inverseTransformDirty := false } := by
        unfold Drawable.refreshInverse
        rw [hitd, if_pos rfl, hinv]
      rw [hr]
    | none => exact absurd ((Mat2d.invert_eq_none _).1 hinv) hdet
  | false =>
    have hr : d.refreshInverse = d := by
      unfold Drawable.refreshInverse
      rw [hitd, if_neg Bool.false_ne_true]
    rw [hr]
    exact hcached hitd hdet

lemma updateMatrix_invert (T : Trig K) (d : Drawable K) (hco : Coherent T d)
    (hdet : ((d.updateMatrix T).transformMatrix).det ≠ 0) :
    ((d.updateMatrix T).transformMatrix).invert =
      some ((d.updateMatrix T).inverseMatrix) := by
  unfold Drawable.updateMatrix at hdet ⊢
  cases htd : d.transformDirty with
  | true =>
    have hif : (if true = true then d.calculateTransform T else d) =
        d.calculateTransform T := if_pos rfl
    rw [htd] at hdet
    rw [hif] at hdet ⊢
    refine refreshInverse_invert (d.calculateTransform T) ?_ hdet
    intro hitd _
    exfalso
    have hpres := (calculateTransform_fields T d).2.2.2.2.2.1
    rw [hpres] at hitd
    have := (hco.2.2.2.2 hitd).1
    rw [htd] at this
    exact Bool.noConfusion this
  | false =>
    have hif : (if false = true then d.calculateTransform T else d) = d :=
      if_neg Bool.false_ne_true
    rw [htd] at hdet
    rw [hif] at hdet ⊢
    refine refreshInverse_invert d ?_ hdet
    intro hitd hd
    exact (hco.2.2.2.2 hitd).2 hd

/-- C1: after any sequence of `updatePosition` / `updateDirection` /
`updateScale` calls on a drawable with a skin whose caches are coherent,
`getTransform` returns exactly the transform computed from the final logical
state, which equals the composition
`T(position) ∘ R((90 − direction)·π/180) ∘ S(skinScale) ∘ T(−rotationCenter)`;
moreover an update whose argument equals the stored field value leaves the
drawable (all dirty flags included) unchanged. -/
theorem transform_cache_sound (T : Trig K) (d : Drawable K) (sk : SkinData K)
    (us : List (Upd K)) (hco : Coherent T d) (hsk : d.skin = some sk) :
    (((applyUpds d us).getTransform T).2 =
      pureTransform T (applyUpds d us).direction (applyUpds d us).scale
        (applyUpds d us).position sk) ∧
    (∀ dir scl pos, pureTransform T dir scl pos sk =
      (Mat2d.translation pos).mul
        ((Mat2d.rotationOf (T.cos ((90 - dir) * T.pi / 180))
            (T.sin ((90 - dir) * T.pi / 180))).mul
          ((Mat2d.scaling
              (scl.1 * (1 / 100) / sk.sizeRatio, scl.2 * (-1 / 100) / sk.sizeRatio)).mul
            (Mat2d.translation
              (-(sk.rotationCenter.1 * sk.sizeRatio),
               -(sk.rotationCenter.2 * sk.sizeRatio)))))) ∧
    (∀ p, d.position.1 = p.1 ∧ d.position.2 = p.2 → d.updatePosition p = d) ∧
    (∀ v, d.direction = v → d.updateDirection v = d) ∧
    (∀ s, d.scale.1 = s.1 ∧ d.scale.2 = s.2 → d.updateScale s = d) := by
  refine ⟨?_, ?_, ?_, ?_, ?_⟩
  · exact getTransform_matrix T (applyUpds d us) sk (coherent_applyUpds T d us hco)
      (by rw [skin_applyUpds, hsk])
  · intro dir scl pos
    exact pureTransform_decomposed T dir scl pos sk
  · intro p hp
    exact updatePosition_noop d p hp
  · intro v hv
    exact updateDirection_noop d v hv
  · intro s hs
    exact updateScale_noop d s hs

/-- Witness for C1 at a concrete drawable and update sequence. -/
theorem transform_cache_sound_witness :
    dW.skin = some skW ∧
    ((applyUpds dW updsW).getTransform trigW).2 =
      pureTransform trigW (applyUpds dW updsW).direction (applyUpds dW updsW).scale
        (applyUpds dW updsW).position skW :=
  ⟨rfl, (transform_cache_sound trigW dW skW updsW
      (coherent_init trigW (some skW)) rfl).1⟩

/-- C9: after `updateMatrix`, whenever the forward transform is invertible the
cached inverse sends every forward-transformed point back to itself (the
cached inverse is the exact matrix inverse of the current forward transform,
never a stale one). -/
theorem inverse_roundtrip (T : Trig K) (d : Drawable K) (P : K × K)
    (hco : Coherent T d)
    (hdet : ((d.updateMatrix T).transformMatrix).det ≠ 0) :
    (d.updateMatrix T).inverseMatrix.apply
      ((d.updateMatrix T).transformMatrix.apply P) = P :=
  Mat2d.invert_apply _ _ (updateMatrix_invert T d hco hdet) P

lemma dW_det : ((dW.updateMatrix trigW).transformMatrix).det ≠ 0 := by
  norm_num [dW, trigW, skW, Drawable.init, Drawable.updateMatrix,
    Drawable.calculateTransform, Drawable.refreshRotation,
    Drawable.refreshRotationCenter, Drawable.refreshSkinScale,
    Drawable.composeTransform, Drawable.refreshInverse, Mat2d.det, Mat2d.invert,
    Mat2d.id]

/-- Witness for C9 at a concrete drawable and point. -/
theorem inverse_roundtrip_witness :
    ((dW.updateMatrix trigW).transformMatrix).det ≠ 0 ∧
    (dW.updateMatrix trigW).inverseMatrix.apply
      ((dW.updateMatrix trigW).transformMatrix.apply (3, 4)) = (3, 4) :=
  ⟨dW_det, inverse_roundtrip trigW dW (3, 4)
      (coherent_init trigW (some skW)) dW_det⟩

lemma updateEffect_effects (T : Trig K) (d : Drawable K) (e : EffectName)
    (raw : K) : (d.updateEffect T e raw).effects e = converter T e raw := by
  unfold Drawable.updateEffect
  cases hs : e.shapeChanges <;> simp [hs]

lemma updateEffect_bits (T : Trig K) (d : Drawable K) (e : EffectName)
    (raw : K) :
    (d.updateEffect T e raw).enabledEffects =
      (if raw ≠ 0 then d.enabledEffects ||| e.mask
       else d.enabledEffects &&& (4294967295 ^^^ e.mask)) := by
  unfold Drawable.updateEffect
  cases hs : e.shapeChanges <;> simp [hs]

lemma updateEffect_hull (T : Trig K) (d : Drawable K) (e : EffectName)
    (raw : K) :
    (d.updateEffect T e raw).convexHullDirty =
      (if e.shapeChanges then true else d.convexHullDirty) := by
  unfold Drawable.updateEffect
  cases hs : e.shapeChanges <;> simp [hs]

lemma testBit_mask_31 (e : EffectName) :
    Nat.testBit 4294967295 e.bit = true := by
  cases e <;> decide

/-- C8: `updateEffect` stores the applied value given by the per-effect
conversion of Table 1, and marks the convex hull dirty exactly for the
shape-affecting effects (fisheye, whirl, pixelate, mosaic), leaving the flag
untouched for color, brightness and ghost. -/
theorem effect_update_table (T : Trig K) (d : Drawable K) (e : EffectName)
    (raw : K) :
    ((d.updateEffect T e raw).effects e = converter T e raw) ∧
    (converter T .color raw = jsMod (raw / 200) 1 ∧
     converter T .fisheye raw = max 0 ((raw + 100) / 100) ∧
     converter T .whirl raw = -raw * T.pi / 180 ∧
     converter T .pixelate raw = |raw| / 10 ∧
     converter T .mosaic raw = max 1 (min (jsRound ((|raw| + 10) / 10)) 512) ∧
     converter T .brightness raw = max (-100) (min raw 100) / 100 ∧
     converter T .ghost raw = 1 - max 0 (min raw 100) / 100) ∧
    (e.shapeChanges = true → (d.updateEffect T e raw).convexHullDirty = true) ∧
    (e.shapeChanges = false →
      (d.updateEffect T e raw).convexHullDirty = d.convexHullDirty) ∧
    (e.shapeChanges = true ↔
      (e = .fisheye ∨ e = .whirl ∨ e = .pixelate ∨ e = .mosaic)) := by
  refine ⟨updateEffect_effects T d e raw,
    ⟨rfl, rfl, rfl, rfl, rfl, rfl, rfl⟩, ?_, ?_, ?_⟩
  · intro hs
    rw [updateEffect_hull, hs, if_pos rfl]
  · intro hs
    rw [updateEffect_hull, hs, if_neg Bool.false_ne_true]
  · cases e <;> simp [EffectName.shapeChanges]

/-- Witness for C8 at a concrete effect update. -/
theorem effect_update_table_witness :
    EffectName.whirl.shapeChanges = true ∧
    ((dW.updateEffect trigW .whirl 30).convexHullDirty = true ∧
     (dW.updateEffect trigW .whirl 30).effects .whirl = converter trigW .whirl 30) :=
  ⟨rfl, (effect_update_table trigW dW .whirl 30).2.2.1 rfl,
    (effect_update_table trigW dW .whirl 30).1⟩

/-- C10: after `updateEffect`, the effect's bit in the enabled-effects mask is
set exactly when the raw value is nonzero, independently of the stored
converted value; in particular resetting ghost to raw 0 clears its bit while
the stored applied value is the nonzero default `converter ghost 0 = 1`. -/
theorem effect_bit_iff_raw_nonzero (T : Trig K) (d : Drawable K)
    (e : EffectName) (raw : K) :
    ((d.updateEffect T e raw).enabledEffects.testBit e.bit = true ↔ raw ≠ 0) ∧
    ((d.updateEffect T e raw).effects e = converter T e raw) ∧
    ((d.updateEffect T .ghost 0).enabledEffects.testBit EffectName.ghost.bit
       = false ∧
     (d.updateEffect T .ghost 0).effects .ghost = 1) ∧
    (converter T .ghost 0 = 1 ∧ converter T .fisheye 0 = 1) := by
  have hset : ∀ a : ℕ, (a ||| e.mask).testBit e.bit = true := by
    intro a
    rw [Nat.testBit_or, EffectName.mask, Nat.testBit_two_pow_self, Bool.or_true]
  have hclear : ∀ (f : EffectName) (a : ℕ),
      (a &&& (4294967295 ^^^ f.mask)).testBit f.bit = false := by
    intro f a
    rw [Nat.testBit_and, Nat.testBit_xor, EffectName.mask,
      Nat.testBit_two_pow_self, testBit_mask_31]
    simp
  have hghost0 : converter T .ghost 0 = 1 := by
    unfold converter
    norm_num
  refine ⟨?_, updateEffect_effects T d e raw, ⟨?_, ?_⟩, hghost0, ?_⟩
  · rw [updateEffect_bits]
    by_cases hraw : raw = 0
    · rw [if_neg (by simpa using hraw)]
      simp [hclear, hraw]
    · rw [if_pos hraw]
      simp [hset, hraw]
  · rw [updateEffect_bits]
    rw [if_neg (by simp)]
    exact hclear .ghost d.enabledEffects
  · rw [updateEffect_effects, hghost0]
  · unfold converter
    norm_num

/-- Witness for C10: ghost raw value 100 sets the bit (stored value 0), then
raw value 0 clears it (stored value 1). -/
theorem effect_bit_iff_raw_nonzero_witness :
    ((dW.updateEffect trigW .ghost 100).enabledEffects.testBit
       EffectName.ghost.bit = true) ∧
    ((dW.updateEffect trigW .ghost 0).enabledEffects.testBit
       EffectName.ghost.bit = false ∧
     (dW.updateEffect trigW .ghost 0).effects .ghost = 1) :=
  ⟨((effect_bit_iff_raw_nonzero trigW dW .ghost 100).1).2 (by norm_num),
    (effect_bit_iff_raw_nonzero trigW dW .ghost 100).2.2.1⟩

/-- C7: every Silhouette query is total and safe: with no buffer installed
both touch queries report no touch and both colour queries produce
transparent black; and any pixel read outside the buffer bounds yields alpha
`0` / colour `(0,0,0,0)`, so the nearest-pixel queries at an out-of-bounds
coordinate return false / transparent rather than failing. -/
lemma getPoint_oob (w h : ℕ) (data : ℕ → ℕ) (x y : ℤ)
    (hout : (w : ℤ) ≤ x ∨ (h : ℤ) ≤ y ∨ x < 0 ∨ y < 0) :
    getPoint w h data x y = 0 := by
  unfold getPoint
  exact if_pos hout

lemma getColor4b_oob (w h : ℕ) (data : ℕ → ℕ) (x y : ℤ)
    (hout : (w : ℤ) ≤ x ∨ (h : ℤ) ≤ y ∨ x < 0 ∨ y < 0) :
    getColor4b w h data x y = (0, 0, 0, 0) := by
  unfold getColor4b
  exact if_pos hout

theorem silhouette_queries_safe :
    (∀ (s : Silhouette) (v : ℚ × ℚ), s.colorData = none →
      s.isTouchingNearest v = false ∧ s.isTouchingLinear v = false ∧
      s.colorAtNearest v = (0, 0, 0, 0) ∧ s.colorAtLinear v = (0, 0, 0, 0)) ∧
    (∀ (w h : ℕ) (data : ℕ → ℕ) (x y : ℤ),
      ((w : ℤ) ≤ x ∨ (h : ℤ) ≤ y ∨ x < 0 ∨ y < 0) →
      getPoint w h data x y = 0 ∧ getColor4b w h data x y = (0, 0, 0, 0)) ∧
    (∀ (s : Silhouette) (data : ℕ → ℕ) (v : ℚ × ℚ), s.colorData = some data →
      ((s.width : ℤ) ≤ ⌊v.1 * ((s.width : ℚ) - 1)⌋ ∨
       (s.height : ℤ) ≤ ⌊v.2 * ((s.height : ℚ) - 1)⌋ ∨
       ⌊v.1 * ((s.width : ℚ) - 1)⌋ < 0 ∨
       ⌊v.2 * ((s.height : ℚ) - 1)⌋ < 0) →
      s.isTouchingNearest v = false ∧ s.colorAtNearest v = (0, 0, 0, 0)) := by
  refine ⟨?_, ?_, ?_⟩
  · intro s v hnone
    unfold Silhouette.isTouchingNearest Silhouette.isTouchingLinear
      Silhouette.colorAtNearest Silhouette.colorAtLinear
    rw [hnone]
    exact ⟨rfl, rfl, rfl, rfl⟩
  · intro w h data x y hout
    exact ⟨getPoint_oob w h data x y hout, getColor4b_oob w h data x y hout⟩
  · intro s data v hdata hout
    unfold Silhouette.isTouchingNearest Silhouette.colorAtNearest
    rw [hdata]
    constructor
    · show decide (0 < getPoint s.width s.height data
        ⌊v.1 * ((s.width : ℚ) - 1)⌋ ⌊v.2 * ((s.height : ℚ) - 1)⌋) = false
      rw [getPoint_oob s.width s.height data _ _ hout]
      decide
    · show getColor4b s.width s.height data
        ⌊v.1 * ((s.width : ℚ) - 1)⌋ ⌊v.2 * ((s.height : ℚ) - 1)⌋ = (0, 0, 0, 0)
      exact getColor4b_oob s.width s.height data _ _ hout

/-- Witness for C7: a never-updated silhouette and an out-of-bounds pixel
read on a 2×2 buffer. -/
theorem silhouette_queries_safe_witness :
    (Silhouette.mk 0 0 none).colorData = none ∧
    ((Silhouette.mk 0 0 none).isTouchingNearest (1/2, 1/2) = false ∧
     (Silhouette.mk 0 0 none).isTouchingLinear (1/2, 1/2) = false ∧
     (Silhouette.mk 0 0 none).colorAtNearest (1/2, 1/2) = (0, 0, 0, 0) ∧
     (Silhouette.mk 0 0 none).colorAtLinear (1/2, 1/2) = (0, 0, 0, 0)) ∧
    getPoint 2 2 (fun _ => 255) 5 0 = 0 ∧
    getColor4b 2 2 (fun _ => 255) 5 0 = (0, 0, 0, 0) :=
  ⟨rfl, silhouette_queries_safe.1 (Silhouette.mk 0 0 none) (1/2, 1/2) rfl,
    silhouette_queries_safe.2.1 2 2 (fun _ => 255) 5 0 (by norm_num)⟩

lemma roundTiesEven_intCast (n : ℤ) : roundTiesEven (n : ℚ) = n := by
  unfold roundTiesEven
  rw [Int.floor_intCast]
  norm_num

lemma roundTiesEven_le_floor_add_one (x : ℚ) : roundTiesEven x ≤ ⌊x⌋ + 1 := by
  unfold roundTiesEven
  split_ifs <;> omega

lemma u8clamp_le (x : ℚ) : u8clamp x ≤ 255 := by
  unfold u8clamp
  split_ifs with h1 h2
  · omega
  · omega
  · have hx : x < 255 := lt_of_not_le h2
    have hf : ⌊x⌋ + 1 ≤ 255 := by
      have := Int.floor_le x
      have : (⌊x⌋ : ℚ) < 255 := lt_of_le_of_lt this hx
      exact_mod_cast Int.add_one_le_iff.mpr (by exact_mod_cast this)
    have := roundTiesEven_le_floor_add_one x
    omega

lemma u8clamp_natCast (n : ℕ) (h : n ≤ 255) : u8clamp (n : ℚ) = n := by
  unfold u8clamp
  split_ifs with h1 h2
  · have hge : (0 : ℚ) ≤ (n : ℚ) := by positivity
    have h0 : (n : ℚ) = 0 := le_antisymm h1 hge
    have hn : n = 0 := by exact_mod_cast h0
    omega
  · have : (255 : ℚ) ≤ n := h2
    have h255 : 255 ≤ n := by exact_mod_cast this
    omega
  · have : ((n : ℤ) : ℚ) = (n : ℚ) := by push_cast; rfl
    rw [← this, roundTiesEven_intCast]
    simp

/-- C2 (amended): `sampleColor3b` walks the drawables from top to bottom,
accumulating `sampledRGB × remainingAlpha` and scaling the remaining alpha by
`(1 − sampledAlpha)`, stopping as soon as the remaining alpha reaches `0`; a
single fully-opaque drawable yields exactly its sampled colour; but the alpha
left over after exhausting the list is filled with opaque white
`(255,255,255)` — the draw scene's clear colour — not with the configured
background colour, so the empty composite is white. -/
theorem sample_color_compositing :
    (sampleColor3b [] = (255, 255, 255)) ∧
    (∀ r g b : ℕ, r ≤ 255 → g ≤ 255 → b ≤ 255 →
      sampleColor3b [(r, g, b, 255)] = (r, g, b)) ∧
    (∀ (c : ℕ × ℕ × ℕ × ℕ) (rest : List (ℕ × ℕ × ℕ × ℕ)), c.2.2.2 = 255 →
      sampleColor3b (c :: rest) = sampleColor3b [c]) ∧
    (∀ (dst : ℕ × ℕ × ℕ) (a : ℚ) (c : ℕ × ℕ × ℕ × ℕ)
       (rest : List (ℕ × ℕ × ℕ × ℕ)), a ≠ 0 →
      sc3bGo dst a (c :: rest) =
        sc3bGo
          (u8clamp (dst.1 + c.1 * a), u8clamp (dst.2.1 + c.2.1 * a),
           u8clamp (dst.2.2 + c.2.2.1 * a))
          (a * (1 - c.2.2.2 / 255)) rest) ∧
    (∀ (dst : ℕ × ℕ × ℕ) (c : ℕ × ℕ × ℕ × ℕ) (rest : List (ℕ × ℕ × ℕ × ℕ)),
      sc3bGo dst 0 (c :: rest) = sc3bFill dst 0) := by
  have hfill0 : ∀ dst : ℕ × ℕ × ℕ, dst.1 ≤ 255 → dst.2.1 ≤ 255 → dst.2.2 ≤ 255 →
      sc3bFill dst 0 = dst := by
    intro dst h1 h2 h3
    unfold sc3bFill
    rw [show ((dst.1 : ℚ) + 0 * 255) = (dst.1 : ℚ) by ring,
      show ((dst.2.1 : ℚ) + 0 * 255) = (dst.2.1 : ℚ) by ring,
      show ((dst.2.2 : ℚ) + 0 * 255) = (dst.2.2 : ℚ) by ring,
      u8clamp_natCast _ h1, u8clamp_natCast _ h2, u8clamp_natCast _ h3]
  refine ⟨?_, ?_, ?_, ?_, ?_⟩
  · show sc3bFill (0, 0, 0) 1 = (255, 255, 255)
    unfold sc3bFill u8clamp
    norm_num
  · intro r g b hr hg hb
    show sc3bGo (0, 0, 0) 1 [(r, g, b, 255)] = (r, g, b)
    unfold sc3bGo
    rw [if_neg one_ne_zero]
    have ha : (1 : ℚ) * (1 - (255 : ℕ) / 255) = 0 := by norm_num
    rw [ha]
    show sc3bFill _ 0 = (r, g, b)
    rw [hfill0 _ (u8clamp_le _) (u8clamp_le _) (u8clamp_le _)]
    rw [show ((0 : ℕ) + (r : ℚ) * 1 : ℚ) = (r : ℚ) by push_cast; ring,
      show ((0 : ℕ) + (g : ℚ) * 1 : ℚ) = (g : ℚ) by push_cast; ring,
      show ((0 : ℕ) + (b : ℚ) * 1 : ℚ) = (b : ℚ) by push_cast; ring,
      u8clamp_natCast _ hr, u8clamp_natCast _ hg, u8clamp_natCast _ hb]
  · intro c rest hc
    show sc3bGo (0, 0, 0) 1 (c :: rest) = sc3bGo (0, 0, 0) 1 [c]
    unfold sc3bGo
    rw [if_neg one_ne_zero, if_neg one_ne_zero]
    have ha : (1 : ℚ) * (1 - (c.2.2.2 : ℚ) / 255) = 0 := by
      rw [hc]; norm_num
    rw [ha]
    cases rest with
    | nil => rfl
    | cons c2 rest2 =>
      show sc3bGo _ 0 (c2 :: rest2) = sc3bFill _ 0
      unfold sc3bGo
      rw [if_pos rfl]
  · intro dst a c rest ha
    show sc3bGo dst a (c :: rest) = _
    unfold sc3bGo
    rw [if_neg ha]
    cases rest <;> rfl
  · intro dst c rest
    show sc3bGo dst 0 (c :: rest) = sc3bFill dst 0
    unfold sc3bGo
    rw [if_pos rfl]

/-- Counterexample for C2 as stated: with the background set to black via
`setBackgroundColor(0,0,0)`, compositing an empty drawable list returns
opaque white, not the background colour. -/
theorem sample_color_background_counterexample :
    setBackgroundColor 0 0 0 = (0, 0, 0) ∧
    sampleColor3b [] = (255, 255, 255) ∧
    sampleColor3b [] ≠ setBackgroundColor 0 0 0 := by
  have h1 : setBackgroundColor 0 0 0 = (0, 0, 0) := by
    unfold setBackgroundColor u8clamp
    norm_num
  have h2 : sampleColor3b [] = (255, 255, 255) := by
    show sc3bFill (0, 0, 0) 1 = (255, 255, 255)
    unfold sc3bFill u8clamp
    norm_num
  refine ⟨h1, h2, ?_⟩
  rw [h1, h2]
  simp

/-- Witness for C2 at a concrete opaque colour over a nonempty tail. -/
theorem sample_color_compositing_witness :
    sampleColor3b [(10, 20, 30, 255), (99, 99, 99, 255)] = (10, 20, 30) := by
  rw [sample_color_compositing.2.2.1 (10, 20, 30, 255) [(99, 99, 99, 255)] rfl]
  exact sample_color_compositing.2.1 10 20 30 (by norm_num) (by norm_num) (by norm_num)

/-- C4 failing input: with groups `["a", "b"]`, drawable 0 in "a" and
drawable 1 in "b", the call `setDrawableOrder(0, Infinity, "a")` clamps the
new index to the group's pre-removal exclusive end (`endIndex = 1`) and
reinserts drawable 0 *after* drawable 1, producing draw list `[1, 0]`: the id
belonging to group "a" now follows the id belonging to the later group "b",
and group "b"'s recorded offset `1` no longer points at the start of its
range.  The partition invariant claimed by the spec is violated. -/
theorem drawlist_partition_bug :
    dlW3.drawList = [0, 1] ∧
    dlW3.layerGroups "a" = some ⟨0, 0⟩ ∧
    dlW3.layerGroups "b" = some ⟨1, 1⟩ ∧
    dlW4.drawList = [1, 0] ∧
    dlW4.layerGroups "b" = some ⟨1, 1⟩ := by
  refine ⟨?_, ?_, ?_, ?_, ?_⟩ <;> decide

lemma popLeft_subset (p : ℚ × ℚ) :
    ∀ stack : List (ℚ × ℚ), ∀ q ∈ popLeft stack p, q ∈ stack := by
  intro stack
  induction stack with
  | nil => intro q hq; exact hq
  | cons a rest ih =>
    cases rest with
    | nil => intro q hq; exact hq
    | cons b rest2 =>
      intro q hq
      unfold popLeft at hq
      split at hq
      · exact hq
      · exact List.mem_cons_of_mem a (ih q hq)

lemma popRight_subset (p : ℚ × ℚ) :
    ∀ stack : List (ℚ × ℚ), ∀ q ∈ popRight stack p, q ∈ stack := by
  intro stack
  induction stack with
  | nil => intro q hq; exact hq
  | cons a rest ih =>
    cases rest with
    | nil => intro q hq; exact hq
    | cons b rest2 =>
      intro q hq
      unfold popRight at hq
      split at hq
      · exact hq
      · exact List.mem_cons_of_mem a (ih q hq)

lemma leftScanX_good (touch : ℚ × ℚ → Bool) (W H y : ℕ) (hy : y < H) (xl : ℕ)
    (h : leftScanX touch W H y = some xl) :
    GoodPoint W H touch ((xl : ℚ) + 1 / 2, (y : ℚ) + 1 / 2) := by
  unfold leftScanX at h
  have hmem := List.mem_of_find?_eq_some h
  have hpred := List.find?_some h
  exact ⟨xl, List.mem_range.mp hmem, y, hy, by simpa using hpred, rfl⟩

lemma rightScanX_good (touch : ℚ × ℚ → Bool) (W H y : ℕ) (hy : y < H) (xr : ℕ)
    (h : rightScanX touch W H y = some xr) :
    GoodPoint W H touch ((xr : ℚ) + 1 / 2, (y : ℚ) + 1 / 2) := by
  unfold rightScanX at h
  have hmem := List.mem_reverse.mp (List.mem_of_find?_eq_some h)
  have hpred := List.find?_some h
  exact ⟨xr, List.mem_range.mp hmem, y, hy, by simpa using hpred, rfl⟩

lemma hullRowStep_good (touch : ℚ × ℚ → Bool) (W H : ℕ)
    (st : List (ℚ × ℚ) × List (ℚ × ℚ)) (y : ℕ) (hy : y < H)
    (h1 : ∀ q ∈ st.1, GoodPoint W H touch q)
    (h2 : ∀ q ∈ st.2, GoodPoint W H touch q) :
    (∀ q ∈ (hullRowStep touch W H st y).1, GoodPoint W H touch q) ∧
    (∀ q ∈ (hullRowStep touch W H st y).2, GoodPoint W H touch q) := by
  unfold hullRowStep
  cases hl : leftScanX touch W H y with
  | none => exact ⟨h1, h2⟩
  | some xl =>
    have hpl : GoodPoint W H touch ((xl : ℚ) + 1 / 2, (y : ℚ) + 1 / 2) :=
      leftScanX_good touch W H y hy xl hl
    constructor
    · intro q hq
      rcases List.mem_cons.mp hq with hq | hq
      · subst hq; exact hpl
      · exact h1 q (popLeft_subset _ _ q hq)
    · intro q hq
      rcases List.mem_cons.mp hq with hq | hq
      · subst hq
        cases hr : rightScanX touch W H y with
        | none => simpa [hr] using hpl
        | some xr =>
          have := rightScanX_good touch W H y hy xr hr
          simpa [hr] using this
      · exact h2 q (popRight_subset _ _ q hq)

lemma find?_const_true (l : List ℕ) (p : ℕ → Bool) (hp : ∀ x, p x = true) :
    l.find? p = l.head? := by
  cases l with
  | nil => rfl
  | cons a t => simp [List.find?, hp]

lemma leftScanX_true (W H y : ℕ) (hW : 1 ≤ W) :
    leftScanX (fun _ => true) W H y = some 0 := by
  unfold leftScanX
  rw [find?_const_true _ _ (fun x => rfl)]
  obtain ⟨n, rfl⟩ := Nat.exists_eq_add_of_le hW
  rw [Nat.add_comm, List.range_succ_eq_map]
  rfl

lemma rightScanX_true (W H y : ℕ) (hW : 1 ≤ W) :
    rightScanX (fun _ => true) W H y = some (W - 1) := by
  unfold rightScanX
  rw [find?_const_true _ _ (fun x => rfl)]
  obtain ⟨n, rfl⟩ := Nat.exists_eq_add_of_le hW
  rw [Nat.add_comm, List.range_succ, List.reverse_append]
  rfl

lemma hullRowStep_true (W H : ℕ) (hW : 2 ≤ W)
    (st : List (ℚ × ℚ) × List (ℚ × ℚ)) (y : ℕ) :
    hullRowStep (fun _ => true) W H st y =
      (((1 : ℚ) / 2, (y : ℚ) + 1 / 2) :: popLeft st.1 ((1 : ℚ) / 2, (y : ℚ) + 1 / 2),
       ((W : ℚ) - 1 / 2, (y : ℚ) + 1 / 2) ::
         popRight st.2 ((W : ℚ) - 1 / 2, (y : ℚ) + 1 / 2)) := by
  have h1 : 1 ≤ W := le_trans (by norm_num) hW
  unfold hullRowStep
  rw [leftScanX_true W H y h1, rightScanX_true W H y h1]
  have hc : ((W - 1 : ℕ) : ℚ) + 1 / 2 = (W : ℚ) - 1 / 2 := by
    rw [Nat.cast_sub h1]
    push_cast
    ring
  simp only [Nat.cast_zero, hc]
  norm_num

lemma rect_fold (W H : ℕ) (hW : 2 ≤ W) :
    ∀ k, (List.range k).foldl (hullRowStep (fun _ => true) W H) ([], []) =
      (rectLeft k, rectRight W k) := by
  intro k
  induction k with
  | zero => rfl
  | succ k ih =>
    rw [List.range_succ, List.foldl_append, ih, List.foldl_cons, List.foldl_nil,
      hullRowStep_true W H hW]
    rcases k with _ | _ | k
    · simp [rectLeft, rectRight, popLeft, popRight]
    · simp [rectLeft, rectRight, popLeft, popRight, hullDet]
      norm_num
    · have hk0 : (k + 2 : ℕ) ≠ 0 := by omega
      have hk1 : (k + 2 : ℕ) ≠ 1 := by omega
      have hk30 : (k + 3 : ℕ) ≠ 0 := by omega
      have hk31 : (k + 3 : ℕ) ≠ 1 := by omega
      simp only [rectLeft, rectRight, hk0, hk1, hk30, hk31, if_false, popLeft,
        popRight, hullDet]
      norm_num
      ring

lemma rect_hull (W H : ℕ) (hW : 2 ≤ W) (hH : 2 ≤ H) :
    convexHullPoints true W H (fun _ => true) =
      [(1 / 2, 1 / 2), (1 / 2, (H : ℚ) - 1 / 2),
       ((W : ℚ) - 1 / 2, (H : ℚ) - 1 / 2), ((W : ℚ) - 1 / 2, 1 / 2)] := by
  unfold convexHullPoints
  rw [if_neg (by simp; omega)]
  rw [rect_fold W H hW H]
  have hH0 : H ≠ 0 := by omega
  have hH1 : H ≠ 1 := by omega
  simp [rectLeft, rectRight, hH0, hH1]

lemma hullFold_good (touch : ℚ × ℚ → Bool) (W H : ℕ) :
    ∀ (rows : List ℕ) (st : List (ℚ × ℚ) × List (ℚ × ℚ)),
    (∀ y ∈ rows, y < H) →
    (∀ q ∈ st.1, GoodPoint W H touch q) → (∀ q ∈ st.2, GoodPoint W H touch q) →
    (∀ q ∈ (rows.foldl (hullRowStep touch W H) st).1, GoodPoint W H touch q) ∧
    (∀ q ∈ (rows.foldl (hullRowStep touch W H) st).2, GoodPoint W H touch q) := by
  intro rows
  induction rows with
  | nil => intro st _ h1 h2; exact ⟨h1, h2⟩
  | cons y rest ih =>
    intro st hrows h1 h2
    rw [List.foldl_cons]
    have hy : y < H := hrows y (List.mem_cons_self y rest)
    obtain ⟨g1, g2⟩ := hullRowStep_good touch W H st y hy h1 h2
    exact ih (hullRowStep touch W H st y) (fun z hz => hrows z (List.mem_cons_of_mem y hz)) g1 g2

lemma hullRowStep_false (W H : ℕ) (st : List (ℚ × ℚ) × List (ℚ × ℚ)) (y : ℕ) :
    hullRowStep (fun _ => false) W H st y = st := by
  unfold hullRowStep
  have : leftScanX (fun _ => false) W H y = none := by
    unfold leftScanX
    simp
  rw [this]

/-- C3: the convex hull extractor returns the empty polygon for an invisible
drawable, a zero-sized skin, or a fully transparent silhouette; every emitted
vertex is the mid-pixel coordinate of a touching pixel on its row (rows with
no touching pixel contribute no point, degenerate or otherwise); and for a
fully opaque W×H rectangle with W, H ≥ 2 the result is exactly the four
mid-pixel corner points, left-hull points in row order followed by right-hull
points in reverse row order (clockwise in raster orientation). -/
theorem convex_hull_extractor (W H : ℕ) (touch : ℚ × ℚ → Bool) (v : Bool) :
    (convexHullPoints false W H touch = [] ∧
     convexHullPoints v 0 H touch = [] ∧
     convexHullPoints v W 0 touch = []) ∧
    (convexHullPoints v W H (fun _ => false) = []) ∧
    (∀ p ∈ convexHullPoints v W H touch, GoodPoint W H touch p) ∧
    (2 ≤ W → 2 ≤ H →
      convexHullPoints true W H (fun _ => true) =
        [(1 / 2, 1 / 2), (1 / 2, (H : ℚ) - 1 / 2),
         ((W : ℚ) - 1 / 2, (H : ℚ) - 1 / 2), ((W : ℚ) - 1 / 2, 1 / 2)]) := by
  refine ⟨⟨?_, ?_, ?_⟩, ?_, ?_, ?_⟩
  · unfold convexHullPoints
    rw [if_pos (Or.inl rfl)]
  · unfold convexHullPoints
    rw [if_pos (Or.inr (Or.inl rfl))]
  · unfold convexHullPoints
    rw [if_pos (Or.inr (Or.inr rfl))]
  · unfold convexHullPoints
    split
    · rfl
    · have : ∀ rows : List ℕ,
          rows.foldl (hullRowStep (fun _ => false) W H) ([], []) = ([], []) := by
        intro rows
        induction rows with
        | nil => rfl
        | cons y rest ih => rw [List.foldl_cons, hullRowStep_false, ih]
      rw [this]
      rfl
  · intro p hp
    unfold convexHullPoints at hp
    split at hp
    · simp at hp
    · obtain ⟨g1, g2⟩ := hullFold_good touch W H (List.range H) ([], [])
        (fun y hy => List.mem_range.mp hy) (by simp) (by simp)
      rcases List.mem_append.mp hp with hq | hq
      · exact g1 p (List.mem_reverse.mp hq)
      · exact g2 p hq
  · intro hW hH
    exact rect_hull W H hW hH

/-- Witness for C3: the 3×3 fully opaque rectangle yields exactly its four
mid-pixel corners in clockwise order. -/
theorem convex_hull_extractor_witness :
    (2 : ℕ) ≤ 3 ∧
    convexHullPoints true 3 3 (fun _ => true) =
      [(1 / 2, 1 / 2), (1 / 2, ((3 : ℕ) : ℚ) - 1 / 2),
       (((3 : ℕ) : ℚ) - 1 / 2, ((3 : ℕ) : ℚ) - 1 / 2),
       (((3 : ℕ) : ℚ) - 1 / 2, 1 / 2)] :=
  ⟨by norm_num,
    (convex_hull_extractor 3 3 (fun _ => true) true).2.2.2 (by norm_num) (by norm_num)⟩

lemma scanSteps_mem (lo hi y : ℚ) :
    (y ∈ (List.range (if lo ≤ hi then (⌊hi - lo⌋ + 1).toNat else 0)).map
        (fun k : ℕ => lo + (k : ℚ))) ↔
      ∃ j : ℕ, y = lo + (j : ℚ) ∧ lo + (j : ℚ) ≤ hi := by
  simp only [List.mem_map, List.mem_range]
  constructor
  · rintro ⟨k, hk, rfl⟩
    refine ⟨k, rfl, ?_⟩
    by_cases hbt : lo ≤ hi
    · rw [if_pos hbt] at hk
      have hnn : 0 ≤ ⌊hi - lo⌋ := Int.floor_nonneg.mpr (by linarith)
      have hk2 : (k : ℤ) ≤ ⌊hi - lo⌋ := by omega
      have hk3 : (k : ℚ) ≤ hi - lo := by
        have := Int.le_floor.mp hk2
        exact_mod_cast this
      linarith
    · rw [if_neg hbt] at hk
      omega
  · rintro ⟨j, rfl, hle⟩
    have hbt : lo ≤ hi := le_trans (le_add_of_nonneg_right (by positivity)) hle
    refine ⟨j, ?_, rfl⟩
    rw [if_pos hbt]
    have h1 : (j : ℚ) ≤ hi - lo := by linarith
    have h2 : (j : ℤ) ≤ ⌊hi - lo⌋ := Int.le_floor.mpr (by exact_mod_cast h1)
    omega

lemma scanYs_mem (b : Rect) (y : ℚ) :
    y ∈ scanYs b ↔
      ∃ j : ℕ, y = b.bottom + (j : ℚ) ∧ b.bottom + (j : ℚ) ≤ b.top := by
  unfold scanYs
  exact scanSteps_mem b.bottom b.top y

lemma scanXs_mem (b : Rect) (x : ℚ) :
    x ∈ scanXs b ↔
      ∃ i : ℕ, x = b.left + (i : ℚ) ∧ b.left + (i : ℚ) ≤ b.right := by
  unfold scanXs
  exact scanSteps_mem b.left b.right x

lemma scan_any_iff (b : Rect) (q : ℚ × ℚ → Bool) :
    ((scanYs b).any (fun y => (scanXs b).any (fun x => q (x, y))) = true) ↔
      ∃ p ∈ scanPoints b, q p = true := by
  simp only [List.any_eq_true, scanPoints, List.mem_flatMap, List.mem_map]
  constructor
  · rintro ⟨y, hy, x, hx, hq⟩
    exact ⟨(x, y), ⟨y, hy, x, hx, rfl⟩, hq⟩
  · rintro ⟨p, ⟨y, hy, x, hx, hpe⟩, hq⟩
    subst hpe
    exact ⟨y, hy, x, hx, hq⟩

lemma scanPoints_mem (b : Rect) (p : ℚ × ℚ) :
    p ∈ scanPoints b ↔
      ∃ i j : ℕ, p = (b.left + (i : ℚ), b.bottom + (j : ℚ)) ∧
        b.left + (i : ℚ) ≤ b.right ∧ b.bottom + (j : ℚ) ≤ b.top := by
  simp only [scanPoints, List.mem_flatMap, List.mem_map]
  constructor
  · rintro ⟨y, hy, x, hx, hpe⟩
    subst hpe
    obtain ⟨j, rfl, hj⟩ := (scanYs_mem b y).mp hy
    obtain ⟨i, rfl, hi⟩ := (scanXs_mem b x).mp hx
    exact ⟨i, j, rfl, hi, hj⟩
  · rintro ⟨i, j, rfl, hi, hj⟩
    refine ⟨b.bottom + (j : ℚ), ?_, b.left + (i : ℚ), ?_, rfl⟩
    · exact (scanYs_mem b _).mpr ⟨j, rfl, hj⟩
    · exact (scanXs_mem b _).mpr ⟨i, rfl, hi⟩

/-- C5: `isTouchingColor` selects its scan region by the claimed rule — the
drawable's own stage-clamped, integer-snapped bounds when the target colour
matches the background under the 5/5/4-bit tolerance (false when those
bounds are null), otherwise false without scanning when no other visible
drawable's bounds intersect, otherwise the union of the pairwise
intersections — and over the selected region it returns true exactly when
some scanned integer grid point passes the touch (or mask-match) predicate
and the composited candidate stack matches the target colour under the same
tolerance. -/
theorem touching_color_region_and_scan (st : RenderState) (id : ℤ)
    (c3 : ℕ × ℕ × ℕ) (mask3b : Option (ℕ × ℕ × ℕ)) :
    (colorMatches c3 st.backgroundColor3b = true →
      (touchingBounds st id = none → isTouchingColor st id c3 mask3b = false) ∧
      (∀ b, touchingBounds st id = some b →
        (isTouchingColor st id c3 mask3b = true ↔
          ∃ p ∈ scanPoints b,
            touchPass st id c3 mask3b
              (candidatesTouching st id (visibleDrawList st)) p = true))) ∧
    (colorMatches c3 st.backgroundColor3b = false →
      (candidatesTouching st id (visibleDrawList st) = [] →
        isTouchingColor st id c3 mask3b = false) ∧
      (∀ b, candidatesBounds (candidatesTouching st id (visibleDrawList st)) = some b →
        (isTouchingColor st id c3 mask3b = true ↔
          ∃ p ∈ scanPoints b,
            touchPass st id c3 mask3b
              (candidatesTouching st id (visibleDrawList st)) p = true))) ∧
    (∀ (b : Rect) (p : ℚ × ℚ), p ∈ scanPoints b ↔
      ∃ i j : ℕ, p = (b.left + (i : ℚ), b.bottom + (j : ℚ)) ∧
        b.left + (i : ℚ) ≤ b.right ∧ b.bottom + (j : ℚ) ≤ b.top) := by
  refine ⟨?_, ?_, fun b p => scanPoints_mem b p⟩
  · intro hbg
    constructor
    · intro htb
      unfold isTouchingColor
      rw [hbg, if_pos rfl, htb]
    · intro b htb
      unfold isTouchingColor
      rw [hbg, if_pos rfl, htb]
      exact scan_any_iff b _
  · intro hbg
    constructor
    · intro hcand
      unfold isTouchingColor
      rw [hbg, if_neg Bool.false_ne_true, hcand, if_pos rfl]
    · intro b hcb
      unfold isTouchingColor
      rw [hbg, if_neg Bool.false_ne_true]
      have hne : candidatesTouching st id (visibleDrawList st) ≠ [] := by
        intro h
        rw [h] at hcb
        exact Option.noConfusion hcb
      rw [if_neg hne, hcb]
      exact scan_any_iff b _

/-- Witness for C5: querying white (which matches the white background) on a
drawable whose touching bounds are null returns false. -/
theorem touching_color_region_and_scan_witness :
    colorMatches (255, 255, 255) stW5.backgroundColor3b = true ∧
    touchingBounds stW5 0 = none ∧
    isTouchingColor stW5 0 (255, 255, 255) none = false :=
  ⟨by decide, rfl,
    ((touching_color_region_and_scan stW5 0 (255, 255, 255) none).1 (by decide)).1 rfl⟩

lemma foldl_update_count (st : RenderState) (cands : List ℤ) :
    ∀ (pts : List (ℚ × ℚ)) (f : ℤ → ℕ) (cid : ℤ),
      (pts.foldl
        (fun f p =>
          match pickTopmost st cands p with
          | some c => Function.update f c (f c + 1)
          | none => f) f) cid =
      f cid + pts.countP (fun p => pickTopmost st cands p = some cid) := by
  intro pts
  induction pts with
  | nil => intro f cid; simp
  | cons p rest ih =>
    intro f cid
    rw [List.foldl_cons, List.countP_cons]
    cases htop : pickTopmost st cands p with
    | none =>
      rw [ih]
      simp [htop]
    | some c =>
      rw [ih]
      by_cases hc : c = cid
      · subst hc
        simp [htop, Function.update_same]
        omega
      · simp [htop, Function.update_noteq (Ne.symm hc) _ f]
        omega

lemma pickHits_count (st : RenderState) (cands : List ℤ) (b : Rect) (cid : ℤ) :
    pickHits st cands b cid =
      (scanPoints b).countP (fun p => pickTopmost st cands p = some cid) := by
  unfold pickHits
  rw [foldl_update_count]
  simp

lemma argmax_fold (g : ℤ → ℕ) :
    ∀ (keys : List ℤ) (start : ℤ),
      (keys.foldl (fun best k => if g k > g best then k else best) start = start ∨
       keys.foldl (fun best k => if g k > g best then k else best) start ∈ keys) ∧
      (∀ k ∈ keys, g k ≤ g (keys.foldl (fun best k => if g k > g best then k else best) start)) ∧
      g start ≤ g (keys.foldl (fun best k => if g k > g best then k else best) start) := by
  intro keys
  induction keys with
  | nil => intro start; exact ⟨Or.inl rfl, by simp, le_refl _⟩
  | cons a rest ih =>
    intro start
    rw [List.foldl_cons]
    by_cases hga : g a > g start
    · rw [if_pos hga]
      obtain ⟨hmem, hmax, hstart⟩ := ih a
      refine ⟨?_, ?_, ?_⟩
      · rcases hmem with h | h
        · refine Or.inr ?_
          rw [h]
          exact List.mem_cons_self a rest
        · exact Or.inr (List.mem_cons_of_mem a h)
      · intro k hk
        rcases List.mem_cons.mp hk with hk | hk
        · subst hk
          exact hstart
        · exact hmax k hk
      · exact le_trans (le_of_lt hga) hstart
    · rw [if_neg hga]
      obtain ⟨hmem, hmax, hstart⟩ := ih start
      refine ⟨?_, ?_, hstart⟩
      · rcases hmem with h | h
        · exact Or.inl h
        · exact Or.inr (List.mem_cons_of_mem a h)
      · intro k hk
        rcases List.mem_cons.mp hk with hk | hk
        · subst hk
          exact le_trans (le_of_not_lt hga) hstart
        · exact hmax k hk

lemma mem_insertSorted (n : ℤ) :
    ∀ (l : List ℤ) (a : ℤ), a ∈ insertSorted n l ↔ a = n ∨ a ∈ l := by
  intro l
  induction l with
  | nil => intro a; simp [insertSorted]
  | cons m rest ih =>
    intro a
    unfold insertSorted
    split
    · simp
    · rw [List.mem_cons, ih a, List.mem_cons]
      tauto

lemma mem_sortAsc (l : List ℤ) (a : ℤ) : a ∈ sortAsc l ↔ a ∈ l := by
  unfold sortAsc
  induction l with
  | nil => simp
  | cons m rest ih =>
    rw [List.foldr_cons, mem_insertSorted, ih, List.mem_cons]

lemma clientBounds_size (st : RenderState) (cx cy w h : ℚ) :
    0 ≤ (clientSpaceToScratchBounds st cx cy w h).right -
        (clientSpaceToScratchBounds st cx cy w h).left ∧
    (clientSpaceToScratchBounds st cx cy w h).right -
        (clientSpaceToScratchBounds st cx cy w h).left ≤ 2 ∧
    0 ≤ (clientSpaceToScratchBounds st cx cy w h).top -
        (clientSpaceToScratchBounds st cx cy w h).bottom ∧
    (clientSpaceToScratchBounds st cx cy w h).top -
        (clientSpaceToScratchBounds st cx cy w h).bottom ≤ 2 := by
  simp only [clientSpaceToScratchBounds]
  set W : ℤ := max 1 (min ⌊w * (st.nativeSize.1 / st.clientWidth) + 1 / 2⌋ 3) with hW
  set H : ℤ := max 1 (min ⌊h * (st.nativeSize.2 / st.clientHeight) + 1 / 2⌋ 3) with hH
  have hW1 : 1 ≤ W := le_max_left 1 _
  have hW3 : W ≤ 3 := max_le (by norm_num) (min_le_right _ 3)
  have hH1 : 1 ≤ H := le_max_left 1 _
  have hH3 : H ≤ 3 := max_le (by norm_num) (min_le_right _ 3)
  set A : ℚ := st.xLeft + (cx * (st.nativeSize.1 / st.clientWidth) - ((W : ℚ) - 1) / 2) +
    (if W % 2 = 1 then (0 : ℚ) else -(1 / 2)) with hA
  set B : ℚ := st.yTop - (cy * (st.nativeSize.2 / st.clientHeight) + ((H : ℚ) - 1) / 2) +
    (if H % 2 = 1 then (0 : ℚ) else -(1 / 2)) with hB
  have hfl : ⌊A + (W : ℚ) - 1⌋ = ⌊A⌋ + (W - 1) := by
    rw [show A + (W : ℚ) - 1 = A + ((W - 1 : ℤ) : ℚ) by push_cast; ring,
      Int.floor_add_int]
  have hcl : ⌈B + (H : ℚ) - 1⌉ = ⌈B⌉ + (H - 1) := by
    rw [show B + (H : ℚ) - 1 = B + ((H - 1 : ℤ) : ℚ) by push_cast; ring,
      Int.ceil_add_int]
  rw [hfl, hcl]
  have hw1 : (1 : ℚ) ≤ (W : ℚ) := by exact_mod_cast hW1
  have hw3 : (W : ℚ) ≤ 3 := by exact_mod_cast hW3
  have hh1 : (1 : ℚ) ≤ (H : ℚ) := by exact_mod_cast hH1
  have hh3 : (H : ℚ) ≤ 3 := by exact_mod_cast hH3
  push_cast
  refine ⟨by linarith, by linarith, by linarith, by linarith⟩

lemma pick_eq (st : RenderState) (cx cy tw th : ℚ) (opt : Option (List ℤ)) :
    pick st cx cy tw th opt =
      if pickCands st cx cy tw th opt = [] then .b false
      else
        .id ((sortAsc ((pickCands st cx cy tw th opt).dedup.filter
            (fun cid => pickHits st (pickCands st cx cy tw th opt)
              (clientSpaceToScratchBounds st cx cy tw th) cid ≠ 0)) ++ [idNone]).foldl
          (fun best k =>
            if Function.update (pickHits st (pickCands st cx cy tw th opt)
                  (clientSpaceToScratchBounds st cx cy tw th)) idNone 0 k >
               Function.update (pickHits st (pickCands st cx cy tw th opt)
                  (clientSpaceToScratchBounds st cx cy tw th)) idNone 0 best
            then k else best) idNone) := rfl

/-- C6 (amended): the pick footprint is clamped to between 1×1 and 3×3 stage
pixels; each scanned pixel credits only the topmost (last in draw order)
visible candidate whose touch predicate holds there (`pickHits` counts
exactly those pixels); when candidates survive the bounds filter, `pick`
returns an integer id with the greatest accumulated hit count — the sentinel
`ID_NONE` exactly when no candidate accumulated a hit — but when no visible
candidate's bounds intersect the scan rectangle it returns the boolean
`false` rather than the sentinel id. -/
theorem pick_characterization (st : RenderState) (cx cy tw th : ℚ)
    (opt : Option (List ℤ)) (hids : ∀ cid ∈ opt.getD st.drawList, 0 ≤ cid) :
    (0 ≤ (clientSpaceToScratchBounds st cx cy tw th).right -
        (clientSpaceToScratchBounds st cx cy tw th).left ∧
      (clientSpaceToScratchBounds st cx cy tw th).right -
        (clientSpaceToScratchBounds st cx cy tw th).left ≤ 2 ∧
      0 ≤ (clientSpaceToScratchBounds st cx cy tw th).top -
        (clientSpaceToScratchBounds st cx cy tw th).bottom ∧
      (clientSpaceToScratchBounds st cx cy tw th).top -
        (clientSpaceToScratchBounds st cx cy tw th).bottom ≤ 2) ∧
    (∀ cid, pickHits st (pickCands st cx cy tw th opt)
        (clientSpaceToScratchBounds st cx cy tw th) cid =
      (scanPoints (clientSpaceToScratchBounds st cx cy tw th)).countP
        (fun p => pickTopmost st (pickCands st cx cy tw th opt) p = some cid)) ∧
    (pickCands st cx cy tw th opt = [] →
      pick st cx cy tw th opt = PickResult.b false) ∧
    (pickCands st cx cy tw th opt ≠ [] →
      ∃ n : ℤ, pick st cx cy tw th opt = PickResult.id n ∧
        (∀ cid ∈ pickCands st cx cy tw th opt,
          pickHits st (pickCands st cx cy tw th opt)
              (clientSpaceToScratchBounds st cx cy tw th) cid ≤
            Function.update (pickHits st (pickCands st cx cy tw th opt)
              (clientSpaceToScratchBounds st cx cy tw th)) idNone 0 n) ∧
        ((n = idNone ∧ ∀ cid ∈ pickCands st cx cy tw th opt,
            pickHits st (pickCands st cx cy tw th opt)
              (clientSpaceToScratchBounds st cx cy tw th) cid = 0) ∨
         (n ∈ pickCands st cx cy tw th opt ∧
            pickHits st (pickCands st cx cy tw th opt)
              (clientSpaceToScratchBounds st cx cy tw th) n ≠ 0))) := by
  set b := clientSpaceToScratchBounds st cx cy tw th with hb
  set cands := pickCands st cx cy tw th opt with hcands
  set Hc := pickHits st cands b with hH
  have hmemcands : ∀ cid ∈ cands, 0 ≤ cid := by
    intro cid hcid
    exact hids cid (List.mem_of_mem_filter hcid)
  refine ⟨clientBounds_size st cx cy tw th,
    fun cid => pickHits_count st cands b cid, ?_, ?_⟩
  · intro hempty
    rw [pick_eq, if_pos hempty]
  · intro hne
    rw [pick_eq, if_neg hne]
    set g := Function.update Hc idNone 0 with hg
    set keys := sortAsc (cands.dedup.filter (fun cid => Hc cid ≠ 0)) ++ [idNone]
      with hkeys
    obtain ⟨hmem, hmax, hstart⟩ := argmax_fold g keys idNone
    set n := keys.foldl (fun best k => if g k > g best then k else best) idNone
      with hn
    have hkey_of : ∀ cid ∈ cands, Hc cid ≠ 0 → cid ∈ keys := by
      intro cid hcid hz
      rw [hkeys]
      refine List.mem_append_left _ ?_
      rw [mem_sortAsc, List.mem_filter]
      exact ⟨List.mem_dedup.mpr hcid, by simpa using hz⟩
    have hg_of : ∀ cid ∈ cands, g cid = Hc cid := by
      intro cid hcid
      have h0 : cid ≠ idNone := by
        have := hmemcands cid hcid
        unfold idNone
        omega
      rw [hg]
      exact Function.update_noteq h0 _ _
    have hbound : ∀ cid ∈ cands, Hc cid ≤ g n := by
      intro cid hcid
      by_cases hz : Hc cid = 0
      · rw [hz]
        exact Nat.zero_le _
      · have := hmax cid (hkey_of cid hcid hz)
        rw [hg_of cid hcid] at this
        exact this
    have hallzero_of : g n = 0 → ∀ cid ∈ cands, Hc cid = 0 := by
      intro hgz cid hcid
      have := hbound cid hcid
      omega
    refine ⟨n, rfl, hbound, ?_⟩
    rcases hmem with h | h
    · left
      refine ⟨h, ?_⟩
      apply hallzero_of
      rw [h, hg, Function.update_same]
    · rw [hkeys] at h
      rcases List.mem_append.mp h with h | h
      · right
        rw [mem_sortAsc, List.mem_filter] at h
        exact ⟨List.mem_dedup.mp h.1, by simpa using h.2⟩
      · left
        have hn1 : n = idNone := by simpa using h
        refine ⟨hn1, ?_⟩
        apply hallzero_of
        rw [hn1, hg, Function.update_same]

/-- Counterexample for C6 as stated: with an explicitly empty candidate list
(so that no candidate accumulates any hit), `pick` returns the boolean
`false`, not the sentinel "none" id. -/
theorem pick_empty_counterexample :
    pick stW6 0 0 1 1 (some []) = PickResult.b false ∧
    pick stW6 0 0 1 1 (some []) ≠ PickResult.id idNone := by
  have h : pick stW6 0 0 1 1 (some []) = PickResult.b false := rfl
  refine ⟨h, ?_⟩
  rw [h]
  decide

/-- Witness for C6 at a concrete state and an empty candidate list. -/
theorem pick_characterization_witness :
    pickCands stW6 0 0 1 1 (some []) = [] ∧
    pick stW6 0 0 1 1 (some []) = PickResult.b false :=
  ⟨rfl, (pick_characterization stW6 0 0 1 1 (some []) (by simp)).2.2.1 rfl⟩

end Field

end Fabricat
